import Mathlib

/-!
Shallow embedding of the steganographic codec in
`src/src/services/ClientImageProcessor.js` (the reference client
implementation of the SOC2-web repository).

Modelling conventions:
* byte sequences (`Uint8Array`, `ArrayBuffer`) are `List Nat`;
* the RGBA pixel buffer (`ImageData.data`) is a `List Nat` of length
  `4 * width * height`;
* fallible operations (`throw new Error(...)`) return `Except StegError _`;
* the external primitives that are not part of this repository
  (`pako.deflate`/`pako.inflate`, `crypto.subtle` SHA-256 / AES-CBC) are
  passed as function parameters, so every theorem quantifies over them;
* JavaScript `Uint8Array` element stores truncate to a byte, modelled by
  `% 256` at each store that can exceed 255.
-/

namespace SOC2

/-- Error taxonomy of the codec (spec section 7); each constructor corresponds to
one `throw new Error(...)` site of `ClientImageProcessor.js`.
`capacityExceeded` carries the reported required/available byte counts. -/
inductive StegError where
  | filenameTooLong
  | fileTooLarge
  | capacityExceeded (required : Nat) (available : Nat)
  | invalidSignature
  | passwordRequired
  | decryptionError
  | inflateError
  | integrityError
deriving DecidableEq, Repr

/-- Result of `_readHeader` (the JS object literal returned at its end). -/
structure HeaderInfo where
  encodingType : Nat
  isCompressed : Bool
  bitDepth : Nat
  fileSize : Nat
  fileName : List Nat
  isEncrypted : Bool
  sha256Hash : List Nat
  totalHeaderSize : Nat
deriving DecidableEq, Repr

/-! ### Bit-plane writer: `_writeDataWithBitDepth` -/

/-- Bit `k` (0-based, most-significant-first inside each byte) of the byte
stream `bytes`; this is the value `(dataByte >> (7 - dataByteBitIndex)) & 1`
maintained by the writer loop, where `dataByte = bytes[dataBitIndex/8]` and
`dataByteBitIndex = dataBitIndex % 8`. -/
def streamBit (bytes : List Nat) (k : Nat) : Nat :=
  (bytes.getD (k / 8) 0 >>> (7 - k % 8)) &&& 1

/-- Value `bitsToStore` accumulated by the inner `for (j = 0; j < bitDepth; j++)`
loop of `_writeDataWithBitDepth`, starting the stream at bit `dbi`.  The loop
breaks once `dataBitIndex` reaches the end of the stream; since the bound is
monotone the break is the same as skipping the remaining iterations. -/
def lsbGroup (bytes : List Nat) (bitDepth dbi : Nat) : Nat :=
  (List.range bitDepth).foldl
    (fun acc j =>
      if dbi + j ≥ bytes.length * 8 then acc
      else (acc <<< 1) ||| streamBit bytes (dbi + j)) 0

/-- Main loop of `_writeDataWithBitDepth` over the RGBA buffer: `i` is the
absolute channel index of the head of the remaining buffer, `dbi` the current
`dataBitIndex`.  Alpha channels (`i % 4 = 3`) are skipped; once the stream is
exhausted the outer loop breaks and the rest of the buffer is untouched;
otherwise the channel's low `bitDepth` bits are cleared with the mask
`0xFF << bitDepth` and the next group of stream bits is or-ed in. -/
def lsbWriteGo (bytes : List Nat) (bitDepth : Nat) : List Nat → Nat → Nat → List Nat
  | [], _, _ => []
  | v :: rest, i, dbi =>
    if i % 4 = 3 then v :: lsbWriteGo bytes bitDepth rest (i + 1) dbi
    else if dbi ≥ bytes.length * 8 then v :: rest
    else ((v &&& (255 <<< bitDepth)) ||| lsbGroup bytes bitDepth dbi) ::
      lsbWriteGo bytes bitDepth rest (i + 1) (dbi + min bitDepth (bytes.length * 8 - dbi))

/-- JS `_writeDataWithBitDepth(imageData, bytes, bitDepth)` (lines 318-347). -/
def writeDataWithBitDepth (imageData bytes : List Nat) (bitDepth : Nat) : List Nat :=
  lsbWriteGo bytes bitDepth imageData 0 0

/-! ### Bit-plane reader: `_readDataWithBitDepth` -/

/-- Number of iterations of the inner `for (j = 0; j < 8; j += bitDepth)` loop
of `_readDataWithBitDepth`, i.e. `ceil(8 / bitDepth)` for `bitDepth ≥ 1`.
(For `bitDepth = 0` the JS loop would not terminate; `Nat` division makes the
model return 0 chunks instead — no claim exercises a bit depth of 0 read.) -/
def lsbChunks (bitDepth : Nat) : Nat :=
  (8 + bitDepth - 1) / bitDepth

/-- Channel index computed by `_readDataWithBitDepth` for the chunk starting at
stream position `bitIndex`: `pixelIndex * 4 + channelOffset`. -/
def lsbChanIdx (bitDepth bitIndex : Nat) : Nat :=
  bitIndex / (3 * bitDepth) * 4 + bitIndex % (3 * bitDepth) / bitDepth

/-- One iteration of the inner loop of `_readDataWithBitDepth`: state is
`(currentByte, bitIndex)`; the loop breaks when `bitIndex` reaches
`pixelData.length * 8`. -/
def lsbReadStep (pixelData : List Nat) (bitDepth : Nat) (s : Nat × Nat) : Nat × Nat :=
  if s.2 ≥ pixelData.length * 8 then s
  else ((s.1 <<< bitDepth) ||| (pixelData.getD (lsbChanIdx bitDepth s.2) 0 &&& ((1 <<< bitDepth) - 1)),
        s.2 + bitDepth)

/-- Inner loop of `_readDataWithBitDepth` assembling one output byte. -/
def lsbReadByte (pixelData : List Nat) (bitDepth bi : Nat) : Nat × Nat :=
  (List.range (lsbChunks bitDepth)).foldl (fun s _ => lsbReadStep pixelData bitDepth s) (0, bi)

/-- Outer loop of `_readDataWithBitDepth` over the requested `length` output
bytes, threading `bitIndex`; each store into the `Uint8Array` truncates. -/
def lsbReadGo (pixelData : List Nat) (bitDepth : Nat) : Nat → Nat → List Nat
  | 0, _ => []
  | n + 1, bi =>
    (lsbReadByte pixelData bitDepth bi).1 % 256 ::
      lsbReadGo pixelData bitDepth n (lsbReadByte pixelData bitDepth bi).2

/-- JS `_readDataWithBitDepth(pixelData, startOffset, length, bitDepth)`
(lines 349-369). -/
def readDataWithBitDepth (pixelData : List Nat) (startOffset length bitDepth : Nat) : List Nat :=
  lsbReadGo pixelData bitDepth length (startOffset * 8)

/-! ### Direct codec: `_writeBytesDirectly` / `_readBytesDirectly` -/

/-- Main loop of `_writeBytesDirectly`: steps through the buffer one RGBA pixel
(4 channels) at a time, writing up to three payload bytes into R, G, B and
leaving alpha untouched; each of the three writes is guarded by
`byteIndex < bytes.length`, and the loop stops when the buffer or the payload
is exhausted (an out-of-range `Uint8ClampedArray` store is a no-op, covering
buffers whose length is not a multiple of 4). -/
def dirWriteGo (bytes : List Nat) : List Nat → Nat → List Nat
  | [], _ => []
  | r :: rest, bi =>
    if bi ≥ bytes.length then r :: rest
    else
      match rest with
      | [] => [bytes.getD bi 0]
      | [g] => [bytes.getD bi 0, if bi + 1 < bytes.length then bytes.getD (bi + 1) 0 else g]
      | [g, b] => [bytes.getD bi 0,
          if bi + 1 < bytes.length then bytes.getD (bi + 1) 0 else g,
          if bi + 2 < bytes.length then bytes.getD (bi + 2) 0 else b]
      | g :: b :: a :: rest2 =>
        bytes.getD bi 0 ::
          (if bi + 1 < bytes.length then bytes.getD (bi + 1) 0 else g) ::
          (if bi + 2 < bytes.length then bytes.getD (bi + 2) 0 else b) ::
          a :: dirWriteGo bytes rest2 (bi + 3)

/-- JS `_writeBytesDirectly(imageData, bytes)` (lines 298-305). -/
def writeBytesDirectly (imageData bytes : List Nat) : List Nat :=
  dirWriteGo bytes imageData 0

/-- JS `_readBytesDirectly(pixelData, startOffset, length)` (lines 307-316):
logical byte `p` lives at channel `(p / 3) * 4 + p % 3`; an out-of-range read
of the `Uint8Array` yields 0 when stored back. -/
def readBytesDirectly (pixelData : List Nat) (startOffset length : Nat) : List Nat :=
  (List.range length).map fun i =>
    pixelData.getD ((startOffset + i) / 3 * 4 + (startOffset + i) % 3) 0

/-! ### Header codec: `_createHeader` / `_readHeader` -/

/-- Overwrite the region of `dst` starting at `off` with `src`
(`Uint8Array.prototype.set`); writes past the end of `dst` are dropped
(the 512-byte scratch header buffer is never overrun by the codec). -/
def listSetAt : List Nat → Nat → List Nat → List Nat
  | dst, _, [] => dst
  | [], _, _ :: _ => []
  | _ :: dst, 0, s :: src => s :: listSetAt dst 0 src
  | d :: dst, o + 1, src => d :: listSetAt dst o src

/-- Little-endian 8-byte encoding produced by `setBigUint64(0, BigInt(fileSize), true)`. -/
def le64 (fileSize : Nat) : List Nat :=
  (List.range 8).map fun i => fileSize / 256 ^ i % 256

/-- Little-endian decoding performed by `getBigUint64(0, true)` on an 8-byte buffer. -/
def le64dec (l : List Nat) : Nat :=
  (List.range 8).foldl (fun acc i => acc + l.getD i 0 * 256 ^ i) 0

/-- JS `_createHeader(fileSize, fileName, sha256Hash, isEncrypted, encodingType,
isCompressed, bitDepth)` (lines 208-237): writes the fields at increasing
offsets into a 512-byte zero buffer and slices it at the final offset
`47 + fileName.length`.  `fileName` stands for the UTF-8 bytes produced by
`TextEncoder` (the byte-level view used throughout). -/
def createHeader (fileSize : Nat) (fileName sha256Hash : List Nat) (isEncrypted : Bool)
    (encodingType : Nat) (isCompressed : Bool) (bitDepth : Nat) :
    Except StegError (List Nat) :=
  if fileName.length > 255 then .error .filenameTooLong
  else
    let h := List.replicate 512 0
    let h := listSetAt h 0 [83, 67]
    let h := listSetAt h 2 [encodingType % 256]
    let h := listSetAt h 3 [if isCompressed then 1 else 0]
    let h := listSetAt h 4 [bitDepth % 256]
    let h := listSetAt h 5 (le64 fileSize)
    let h := listSetAt h 13 [fileName.length]
    let h := listSetAt h 14 (fileName.map (· % 256))
    let h := listSetAt h (14 + fileName.length) [if isEncrypted then 1 else 0]
    let h := listSetAt h (15 + fileName.length) (sha256Hash.map (· % 256))
    .ok (h.take (47 + fileName.length))

/-- JS `_readHeader(pixelData)` (lines 239-296).  First a bit-plane probe of the
first 5 header bytes at bit depth 1; on signature match the probe supplies
`encodingType`/`isCompressed`/`bitDepth`, otherwise the same 5 bytes are
re-read with the direct mapping; a second mismatch is `InvalidSignatureError`.
The remaining fields are then read with the bit-depth reader when
`encodingType` is 1 (LSB) and with the direct reader otherwise. -/
def readHeader (pixelData : List Nat) : Except StegError HeaderInfo :=
  let probe := readDataWithBitDepth pixelData 0 5 1
  let direct := readBytesDirectly pixelData 0 5
  let fields : Option (Nat × Bool × Nat) :=
    if probe.getD 0 0 = 83 ∧ probe.getD 1 0 = 67 then
      some (probe.getD 2 0, if probe.getD 3 0 = 1 then true else false, probe.getD 4 0)
    else if direct.getD 0 0 = 83 ∧ direct.getD 1 0 = 67 then
      some (direct.getD 2 0, if direct.getD 3 0 = 1 then true else false, direct.getD 4 0)
    else none
  match fields with
  | none => .error .invalidSignature
  | some (encodingType, isCompressed, bitDepth) =>
    let readFunc : Nat → Nat → List Nat := fun offset len =>
      if encodingType = 1 then readDataWithBitDepth pixelData offset len bitDepth
      else readBytesDirectly pixelData offset len
    let fileSize := le64dec (readFunc 5 8)
    let fileNameLength := (readFunc 13 1).getD 0 0
    let fileName := readFunc 14 fileNameLength
    let isEncrypted := (readFunc (14 + fileNameLength) 1).getD 0 0
    let sha256Hash := readFunc (15 + fileNameLength) 32
    .ok { encodingType := encodingType, isCompressed := isCompressed, bitDepth := bitDepth,
          fileSize := fileSize, fileName := fileName,
          isEncrypted := if isEncrypted = 1 then true else false,
          sha256Hash := sha256Hash, totalHeaderSize := 47 + fileNameLength }

/-! ### Hide pipeline, LSB mode: `hideInExistingImageAsync` -/

/-- Processed payload of the LSB pipeline: the payload is always deflated
first (line 37), then encrypted when a password was supplied (lines 47-50).
`deflate` and `encrypt` model the external `pako.deflate` and
`_encryptData` (whose random IV is folded into the parameter). -/
def hideProcessedData (deflate : List Nat → List Nat) (encrypt : List Nat → List Nat → List Nat)
    (payload : List Nat) (password : Option (List Nat)) : List Nat :=
  match password with
  | some pw => encrypt pw (deflate payload)
  | none => deflate payload

/-- Header-plus-processed-payload (`totalData`, lines 53-56) built by
`hideInExistingImageAsync`; the hash passed to the header is `sha payload` —
the digest of the original bytes (line 44). -/
def hideTotalData (deflate : List Nat → List Nat) (encrypt : List Nat → List Nat → List Nat)
    (sha : List Nat → List Nat) (payload fileName : List Nat) (password : Option (List Nat))
    (bitDepth : Nat) : Except StegError (List Nat) :=
  let processedData := hideProcessedData deflate encrypt payload password
  match createHeader processedData.length fileName (sha payload)
      password.isSome 1 true bitDepth with
  | .error e => .error e
  | .ok header => .ok (header ++ processedData)

/-- JS `hideInExistingImageAsync` (lines 28-85) at the pixel level: builds
`totalData`, rejects it when it exceeds
`floor(width * height * 3 * bitDepth / 8)` bytes (lines 59-62), and otherwise
returns the carrier buffer with the data written at the given bit depth. -/
def hideInExistingImageAsync (deflate : List Nat → List Nat)
    (encrypt : List Nat → List Nat → List Nat) (sha : List Nat → List Nat)
    (payload fileName : List Nat) (password : Option (List Nat)) (bitDepth : Nat)
    (width height : Nat) (carrier : List Nat) : Except StegError (List Nat) :=
  match hideTotalData deflate encrypt sha payload fileName password bitDepth with
  | .error e => .error e
  | .ok totalData =>
    let carrierCapacity := width * height * 3 * bitDepth / 8
    if totalData.length > carrierCapacity then
      .error (StegError.capacityExceeded totalData.length carrierCapacity)
    else
      .ok (writeDataWithBitDepth carrier totalData bitDepth)

/-! ### Hide pipeline, Direct mode: `createCarrierImageAsync` -/

/-- Processed payload of the Direct pipeline (lines 98-102): never compressed;
encrypted only when a password is supplied — JS `if (password)` treats the
empty string as absent. -/
def createProcessedData (encrypt : List Nat → List Nat → List Nat)
    (payload : List Nat) (password : Option (List Nat)) : List Nat :=
  match password with
  | some pw => if pw.isEmpty then payload else encrypt pw payload
  | none => payload

/-- The `!!password` flag passed to `_createHeader` in `createCarrierImageAsync`
(line 104): an empty password string is falsy. -/
def createIsEncrypted (password : Option (List Nat)) : Bool :=
  match password with
  | some pw => !pw.isEmpty
  | none => false

/-- Header-plus-processed-payload (`totalData`, lines 107-109) built by
`createCarrierImageAsync`, after the `MAX_FILE_SIZE` (1 GiB) guard of line 92;
the header is built with `encodingType = 0`, `isCompressed = false`,
`bitDepth = 0` and the digest of the original bytes. -/
def createCarrierTotalData (encrypt : List Nat → List Nat → List Nat)
    (sha : List Nat → List Nat) (payload fileName : List Nat)
    (password : Option (List Nat)) : Except StegError (List Nat) :=
  if payload.length > 1024 * 1024 * 1024 then .error StegError.fileTooLarge
  else
    let processedData := createProcessedData encrypt payload password
    match createHeader processedData.length fileName (sha payload)
        (createIsEncrypted password) 0 false 0 with
    | .error e => .error e
    | .ok header => .ok (header ++ processedData)

/-- Ceiling square root, the `Math.ceil(Math.sqrt(pixelCount))` of line 113. -/
def ceilSqrt (n : Nat) : Nat :=
  if Nat.sqrt n * Nat.sqrt n = n then Nat.sqrt n else Nat.sqrt n + 1

/-- Generated carrier: side length and RGBA pixel buffer. -/
structure GeneratedImage where
  size : Nat
  pixels : List Nat
deriving DecidableEq, Repr

/-- JS `createCarrierImageAsync(file, password, onProgress)` (lines 90-134) at
the pixel level: a white (all-255 RGBA) square canvas of side
`ceil(sqrt(ceil(totalData.length / 3)))` with `totalData` written directly. -/
def createCarrierImageAsync (encrypt : List Nat → List Nat → List Nat)
    (sha : List Nat → List Nat) (payload fileName : List Nat)
    (password : Option (List Nat)) : Except StegError GeneratedImage :=
  match createCarrierTotalData encrypt sha payload fileName password with
  | .error e => .error e
  | .ok totalData =>
    let pixelCount := (totalData.length + 2) / 3
    let imageSize := ceilSqrt pixelCount
    .ok { size := imageSize,
          pixels := writeBytesDirectly (List.replicate (imageSize * imageSize * 4) 255) totalData }

/-! ### Extract pipeline: `extractFileAsync` -/

/-- Payload read of `extractFileAsync` (lines 155-160): bit-depth reader for
LSB images, direct reader otherwise, starting at `totalHeaderSize` for
`fileSize` bytes. -/
def payloadRead (pixelData : List Nat) (h : HeaderInfo) : List Nat :=
  if h.encodingType = 1 then
    readDataWithBitDepth pixelData h.totalHeaderSize h.fileSize h.bitDepth
  else
    readBytesDirectly pixelData h.totalHeaderSize h.fileSize

/-- Decryption stage of `extractFileAsync` (lines 163-171): if the header
declares encryption and the password is missing or empty — the JS guard is
`if (!password)` and the empty string is falsy — `PasswordRequiredError`
before any decryption is attempted; any failure of the external
`_decryptData` (modelled by `decrypt` returning `none`) is caught and
reported as `DecryptionError`. -/
def decryptStage (decrypt : List Nat → List Nat → Option (List Nat))
    (headerInfo : HeaderInfo) (fileDataFromImage : List Nat)
    (password : Option (List Nat)) : Except StegError (List Nat) :=
  if headerInfo.isEncrypted then
    match password with
    | none => .error StegError.passwordRequired
    | some [] => .error StegError.passwordRequired
    | some pw =>
      match decrypt pw fileDataFromImage with
      | none => .error StegError.decryptionError
      | some d => .ok d
  else .ok fileDataFromImage

/-- Decompression stage of `extractFileAsync` (lines 174-177): applied when the
header declares compression; a failure of the external `pako.inflate`
(modelled by `inflate` returning `none`) propagates as its own error. -/
def inflateStage (inflate : List Nat → Option (List Nat)) (headerInfo : HeaderInfo)
    (decryptedData : List Nat) : Except StegError (List Nat) :=
  if headerInfo.isCompressed then
    match inflate decryptedData with
    | none => .error StegError.inflateError
    | some f => .ok f
  else .ok decryptedData

/-- Stages of `extractFileAsync` before the integrity check (lines 147-178):
header decode, payload read, optional decrypt, optional inflate. -/
def extractRecovered (decrypt : List Nat → List Nat → Option (List Nat))
    (inflate : List Nat → Option (List Nat)) (pixelData : List Nat)
    (password : Option (List Nat)) : Except StegError (HeaderInfo × List Nat) :=
  match readHeader pixelData with
  | .error e => .error e
  | .ok headerInfo =>
    match decryptStage decrypt headerInfo (payloadRead pixelData headerInfo) password with
    | .error e => .error e
    | .ok decryptedData =>
      match inflateStage inflate headerInfo decryptedData with
      | .error e => .error e
      | .ok finalData => .ok (headerInfo, finalData)

/-- JS `extractFileAsync(imageFile, password, onProgress)` (lines 139-190) at
the pixel level: the recovered bytes must hash to the stored `sha256Hash`,
else `IntegrityError`; on success the filename and data are returned. -/
def extractFileAsync (decrypt : List Nat → List Nat → Option (List Nat))
    (inflate : List Nat → Option (List Nat)) (sha : List Nat → List Nat)
    (pixelData : List Nat) (password : Option (List Nat)) :
    Except StegError (List Nat × List Nat) :=
  match extractRecovered decrypt inflate pixelData password with
  | .error e => .error e
  | .ok r =>
    if sha r.2 = r.1.sha256Hash then .ok (r.1.fileName, r.2)
    else .error StegError.integrityError

/-! ### Concrete stand-ins for the external primitives (used in witnesses) -/

/-- Modelled from the spec: stand-in for the external SHA-256 digest of §4.6
(`crypto.subtle.digest`, not part of this repository); any function producing
32 bytes satisfies the codec-level theorems, which quantify over the digest. -/
def shaStub (data : List Nat) : List Nat :=
  (List.range 32).map fun i => data.foldl (fun a b => a * 31 + b + 1) i % 256

/-- Modelled from the spec: stand-in for the external AES-CBC encryption of
§4.5 (`crypto.subtle.encrypt`), used only to instantiate witnesses. -/
def encStub (pw data : List Nat) : List Nat :=
  pw.length % 256 :: data

/-- Modelled from the spec: stand-in for the external AES-CBC decryption of
§4.5 (`crypto.subtle.decrypt`), inverse of `encStub`, used only in witnesses. -/
def decStub (pw data : List Nat) : Option (List Nat) :=
  if data.getD 0 0 = pw.length % 256 then some (data.drop 1) else none

/-- Modelled from the spec: stand-in for the external `pako.deflate`, used only
to instantiate witnesses. -/
def deflStub (data : List Nat) : List Nat :=
  data.length % 256 :: data

/-- Modelled from the spec: stand-in for the external `pako.inflate`, inverse
of `deflStub`, used only to instantiate witnesses. -/
def inflStub (data : List Nat) : Option (List Nat) :=
  if data.getD 0 0 = (data.length - 1) % 256 then some (data.drop 1) else none

/-! ### Helper definitions used to state and prove the theorems -/

/-- Digest functions behave like SHA-256 at the type level: 32 output bytes. -/
def ShaOk (sha : List Nat → List Nat) : Prop :=
  ∀ data, (sha data).length = 32 ∧ ∀ b ∈ sha data, b < 256

/-- Absolute RGBA buffer index of the usable (non-alpha) channel number `c`:
both codecs map logical positions to `pixel * 4 + channel` with 3 usable
channels per pixel. -/
def chan (c : Nat) : Nat :=
  c / 3 * 4 + c % 3

/-- Logical byte index consumed by the direct writer at buffer position `k`
(for non-alpha positions): three bytes per four-channel pixel. -/
def dirIdx (k : Nat) : Nat :=
  3 * (k / 4) + k % 4

/-- Number of usable (non-alpha) channels among absolute buffer indices
`i, i+1, ..., i+k-1`. -/
def usableCnt : Nat → Nat → Nat
  | _, 0 => 0
  | i, k + 1 => (if i % 4 = 3 then 0 else 1) + usableCnt (i + 1) k

/-- Value assembled by `n` break-free iterations of the inner loop of
`_readDataWithBitDepth` starting at stream position `bi`. -/
def lsbAssemble (pixelData : List Nat) (bitDepth bi : Nat) : Nat → Nat
  | 0 => 0
  | n + 1 =>
    (lsbAssemble pixelData bitDepth bi n <<< bitDepth) |||
      (pixelData.getD (lsbChanIdx bitDepth (bi + n * bitDepth)) 0 &&& ((1 <<< bitDepth) - 1))

/-- Chunk `t` of the source byte `b`: its bits `t*d .. t*d + d - 1`,
most-significant-first (the group the writer stores in one channel). -/
def byteGroup (b d t : Nat) : Nat :=
  (List.range d).foldl (fun acc j => (acc <<< 1) ||| ((b >>> (7 - (t * d + j))) &&& 1)) 0

/-- Reassembly of a byte from its first `n` chunks at depth `d`,
most-significant chunk first — the value the reader reconstructs. -/
def byteReassemble (b d : Nat) : Nat → Nat
  | 0 => 0
  | n + 1 => (byteReassemble b d n <<< d) ||| byteGroup b d n

/-- Concrete payload of the spec's concrete scenario: the ASCII bytes `HELLO`. -/
def helloPayload : List Nat := [72, 69, 76, 76, 79]

/-- Concrete filename of the spec's concrete scenario: UTF-8 bytes of `a.txt`. -/
def helloName : List Nat := [97, 46, 116, 120, 116]

/-- Adversarial 14-pixel RGBA buffer whose bit-depth-1 probe yields the header
bytes `[83, 67, 0, 0, 2]` — signature match, `encodingType = 0` (Direct),
declared `bitDepth = 2`: the usable channels carry, in their least significant
bits, the bits of those five bytes most-significant-first. -/
def probePix : List Nat :=
  [0, 1, 0, 0,  1, 0, 0, 0,  1, 1, 0, 0,  1, 0, 0, 0,  0, 0, 1, 0,  1, 0, 0, 0,  0, 0, 0, 0,
   0, 0, 0, 0,  0, 0, 0, 0,  0, 0, 0, 0,  0, 0, 0, 0,  0, 0, 0, 0,  0, 0, 1, 0,  0, 0, 0, 0]

/-! ## Bit-level arithmetic lemmas -/

theorem testBit_mul_pow_add (a c d : Nat) (hc : c < 2 ^ d) (i : Nat) :
    (a * 2 ^ d + c).testBit i = if i < d then c.testBit i else a.testBit (i - d) := by
  rcases Nat.lt_or_ge i d with h | h
  · rw [if_pos h]
    obtain ⟨e, rfl⟩ : ∃ e, d = i + 1 + e := ⟨d - i - 1, by omega⟩
    have hpow : a * 2 ^ (i + 1 + e) = 2 ^ i * (2 * (a * 2 ^ e)) := by
      rw [pow_add, pow_add, pow_one]; ring
    have hdiv : (a * 2 ^ (i + 1 + e) + c) / 2 ^ i = 2 * (a * 2 ^ e) + c / 2 ^ i := by
      rw [hpow, Nat.mul_add_div (Nat.two_pow_pos i)]
    have key : (a * 2 ^ (i + 1 + e) + c) / 2 ^ i % 2 = c / 2 ^ i % 2 := by rw [hdiv]; omega
    rw [Nat.testBit_to_div_mod, Nat.testBit_to_div_mod, key]
  · rw [if_neg (by omega)]
    have hdd : (a * 2 ^ d + c) / 2 ^ d = a := by
      rw [Nat.mul_comm, Nat.mul_add_div (Nat.two_pow_pos d), Nat.div_eq_of_lt hc, Nat.add_zero]
    have key : (a * 2 ^ d + c) / 2 ^ i = a / 2 ^ (i - d) := by
      calc (a * 2 ^ d + c) / 2 ^ i
          = (a * 2 ^ d + c) / (2 ^ d * 2 ^ (i - d)) := by
            rw [← pow_add, show d + (i - d) = i from by omega]
        _ = (a * 2 ^ d + c) / 2 ^ d / 2 ^ (i - d) := (Nat.div_div_eq_div_mul _ _ _).symm
        _ = a / 2 ^ (i - d) := by rw [hdd]
    rw [Nat.testBit_to_div_mod, Nat.testBit_to_div_mod, key]

theorem shiftLeft_or_eq_add (a c d : Nat) (hc : c < 2 ^ d) :
    (a <<< d) ||| c = a * 2 ^ d + c := by
  apply Nat.eq_of_testBit_eq
  intro i
  rw [Nat.testBit_or, Nat.testBit_shiftLeft, testBit_mul_pow_add a c d hc i]
  rcases Nat.lt_or_ge i d with h | h
  · rw [if_pos h]
    have hh : ¬ (i ≥ d) := by omega
    simp [hh]
  · rw [if_neg (by omega)]
    have hcf : c.testBit i = false :=
      Nat.testBit_eq_false_of_lt (lt_of_lt_of_le hc (Nat.pow_le_pow_right (by norm_num) h))
    simp [h, hcf]

theorem or_low_mask (x g d : Nat) (hg : g < 2 ^ d) :
    ((x &&& (255 <<< d)) ||| g) &&& ((1 <<< d) - 1) = g := by
  apply Nat.eq_of_testBit_eq
  intro i
  rw [Nat.one_shiftLeft, Nat.testBit_and, Nat.testBit_or, Nat.testBit_and,
    Nat.testBit_shiftLeft, Nat.testBit_two_pow_sub_one]
  rcases Nat.lt_or_ge i d with h | h
  · have hh : ¬ (i ≥ d) := by omega
    simp [h, hh]
  · have hgf : g.testBit i = false :=
      Nat.testBit_eq_false_of_lt (lt_of_lt_of_le hg (Nat.pow_le_pow_right (by norm_num) h))
    have hh : ¬ (i < d) := by omega
    simp [hh, hgf]

theorem masked_chunk_lt (x d : Nat) : x &&& ((1 <<< d) - 1) < 2 ^ d := by
  rw [Nat.one_shiftLeft, Nat.and_pow_two_sub_one_eq_mod]
  exact Nat.mod_lt _ (Nat.two_pow_pos d)

theorem lsbGroup_lt (bytes : List Nat) (d dbi : Nat) : lsbGroup bytes d dbi < 2 ^ d := by
  unfold lsbGroup
  suffices h : ∀ (l : List Nat) (acc k : Nat), acc < 2 ^ k →
      l.foldl (fun acc j => if dbi + j ≥ bytes.length * 8 then acc
        else (acc <<< 1) ||| streamBit bytes (dbi + j)) acc < 2 ^ (k + l.length) by
    simpa using h (List.range d) 0 0 (by norm_num)
  intro l
  induction l with
  | nil => intro acc k hk; simpa using hk
  | cons j rest ih =>
    intro acc k hk
    simp only [List.foldl_cons, List.length_cons]
    have hstep : (if dbi + j ≥ bytes.length * 8 then acc
        else (acc <<< 1) ||| streamBit bytes (dbi + j)) < 2 ^ (k + 1) := by
      split
      · exact lt_of_lt_of_le hk (Nat.pow_le_pow_right (by norm_num) (by omega))
      · have hbit : streamBit bytes (dbi + j) < 2 := by
          have := Nat.and_le_right (n := bytes.getD ((dbi + j) / 8) 0 >>> (7 - (dbi + j) % 8)) (m := 1)
          unfold streamBit; omega
        rw [shiftLeft_or_eq_add _ _ 1 (by simpa using hbit)]
        have h2 : 2 ^ (k + 1) = 2 ^ k * 2 := by rw [pow_succ]
        have h1 : (2:Nat) ^ 1 = 2 := by norm_num
        rw [h1]; omega
    have heq : k + (rest.length + 1) = (k + 1) + rest.length := by omega
    rw [heq]
    exact ih _ _ hstep

/-! ## Channel-indexing arithmetic -/

theorem chan_mod_ne (c : Nat) : chan c % 4 ≠ 3 := by
  unfold chan; omega

theorem chan_lt {c L : Nat} (h4 : L % 4 = 0) (hc : c < 3 * (L / 4)) : chan c < L := by
  unfold chan; omega

theorem dirIdx_chan (c : Nat) : dirIdx (chan c) = c := by
  unfold chan dirIdx; omega

theorem lsbChanIdx_mul (d c : Nat) (hd : 0 < d) : lsbChanIdx d (c * d) = chan c := by
  unfold lsbChanIdx chan
  have h1 : c * d / (3 * d) = c / 3 := by
    rw [show 3 * d = d * 3 from by ring, show c * d = d * c from by ring,
      Nat.mul_div_mul_left _ _ hd]
  have h2 : c * d % (3 * d) / d = c % 3 := by
    rw [Nat.mul_mod_mul_right d c 3, Nat.mul_div_cancel _ hd]
  rw [h1, h2]

theorem usableCnt_add (k1 k2 i : Nat) :
    usableCnt i (k1 + k2) = usableCnt i k1 + usableCnt (i + k1) k2 := by
  induction k1 generalizing i with
  | zero => simp [usableCnt]
  | succ n ih =>
    have h1 : n + 1 + k2 = (n + k2) + 1 := by omega
    rw [h1]
    show (if i % 4 = 3 then 0 else 1) + usableCnt (i + 1) (n + k2) = _
    rw [ih (i + 1)]
    show _ = (if i % 4 = 3 then 0 else 1) + usableCnt (i + 1) n + usableCnt (i + (n + 1)) k2
    have h2 : i + (n + 1) = (i + 1) + n := by omega
    rw [h2]
    split <;> omega

theorem usableCnt_small (i r : Nat) (hi : i % 4 = 0) (hr : r ≤ 3) : usableCnt i r = r := by
  have e0 : ¬ (i % 4 = 3) := by omega
  have e1 : ¬ ((i + 1) % 4 = 3) := by omega
  have e2 : ¬ ((i + 1 + 1) % 4 = 3) := by omega
  interval_cases r <;> simp [usableCnt, e0, e1, e2]

theorem usableCnt_four (q : Nat) : usableCnt (4 * q) 4 = 3 := by
  have e0 : ¬ (4 * q % 4 = 3) := by omega
  have e1 : ¬ ((4 * q + 1) % 4 = 3) := by omega
  have e2 : ¬ ((4 * q + 1 + 1) % 4 = 3) := by omega
  have e3 : (4 * q + 1 + 1 + 1) % 4 = 3 := by omega
  simp [usableCnt, e0, e1, e2, e3]

theorem usableCnt_mul4 (q : Nat) : usableCnt 0 (4 * q) = 3 * q := by
  induction q with
  | zero => simp [usableCnt]
  | succ n ih =>
    have h1 : 4 * (n + 1) = 4 * n + 4 := by ring
    rw [h1, usableCnt_add, ih]
    have h2 : (0 : Nat) + 4 * n = 4 * n := by omega
    rw [h2, usableCnt_four]
    ring

theorem usableCnt_zero_chan (c : Nat) : usableCnt 0 (chan c) = c := by
  have h : chan c = 4 * (c / 3) + c % 3 := by unfold chan; omega
  rw [h, usableCnt_add, usableCnt_mul4]
  have h2 : usableCnt (0 + 4 * (c / 3)) (c % 3) = c % 3 := by
    apply usableCnt_small <;> omega
  rw [h2]; omega

/-! ## Pointwise characterization of the bit-plane writer -/

theorem lsbWriteGo_length (bytes : List Nat) (d : Nat) :
    ∀ (l : List Nat) (i dbi : Nat), (lsbWriteGo bytes d l i dbi).length = l.length := by
  intro l
  induction l with
  | nil => intro i dbi; rfl
  | cons v rest ih =>
    intro i dbi
    simp only [lsbWriteGo]
    split
    · simp [ih]
    · split
      · rfl
      · simp [ih]

theorem writeDataWithBitDepth_length (imageData bytes : List Nat) (d : Nat) :
    (writeDataWithBitDepth imageData bytes d).length = imageData.length :=
  lsbWriteGo_length bytes d imageData 0 0

theorem lsbWriteGo_getD (bytes : List Nat) (d : Nat) :
    ∀ (l : List Nat) (i dbi k : Nat), k < l.length →
    (lsbWriteGo bytes d l i dbi).getD k 0 =
      if (i + k) % 4 = 3 then l.getD k 0
      else if bytes.length * 8 ≤ dbi + d * usableCnt i k then l.getD k 0
      else (l.getD k 0 &&& (255 <<< d)) ||| lsbGroup bytes d (dbi + d * usableCnt i k) := by
  intro l
  induction l with
  | nil => intro i dbi k hk; simp at hk
  | cons v rest ih =>
    intro i dbi k hk
    by_cases hi : i % 4 = 3
    · rw [show lsbWriteGo bytes d (v :: rest) i dbi
          = v :: lsbWriteGo bytes d rest (i + 1) dbi from by
        simp only [lsbWriteGo]; rw [if_pos hi]]
      cases k with
      | zero =>
        simp [hi]
      | succ p =>
        simp only [List.getD_cons_succ]
        rw [ih (i + 1) dbi p (by simpa using hk)]
        have e1 : (i + 1) + p = i + (p + 1) := by omega
        have e2 : usableCnt i (p + 1) = usableCnt (i + 1) p := by
          show (if i % 4 = 3 then 0 else 1) + usableCnt (i + 1) p = _
        -- with hi, the bit is 0
          rw [if_pos hi]; omega
        rw [e1, e2]
    · by_cases hdbi : dbi ≥ bytes.length * 8
      · rw [show lsbWriteGo bytes d (v :: rest) i dbi = v :: rest from by
          simp only [lsbWriteGo]; rw [if_neg hi, if_pos hdbi]]
        by_cases ha : (i + k) % 4 = 3
        · rw [if_pos ha]
        · have hcond : bytes.length * 8 ≤ dbi + d * usableCnt i k := by omega
          rw [if_neg ha, if_pos hcond]
      · rw [show lsbWriteGo bytes d (v :: rest) i dbi
            = ((v &&& (255 <<< d)) ||| lsbGroup bytes d dbi) ::
              lsbWriteGo bytes d rest (i + 1) (dbi + min d (bytes.length * 8 - dbi)) from by
          simp only [lsbWriteGo]; rw [if_neg hi, if_neg hdbi]]
        cases k with
        | zero =>
          have h0 : ¬ ((i + 0) % 4 = 3) := by omega
          have hu : usableCnt i 0 = 0 := rfl
          have hc : ¬ (bytes.length * 8 ≤ dbi + d * usableCnt i 0) := by
            rw [hu]; omega
          rw [if_neg h0, if_neg hc]
          simp [hu]
        | succ p =>
          simp only [List.getD_cons_succ]
          rw [ih (i + 1) (dbi + min d (bytes.length * 8 - dbi)) p (by simpa using hk)]
          have e1 : (i + 1) + p = i + (p + 1) := by omega
          have e2 : usableCnt i (p + 1) = 1 + usableCnt (i + 1) p := by
            show (if i % 4 = 3 then 0 else 1) + usableCnt (i + 1) p = _
            rw [if_neg hi]
          by_cases ha : (i + (p + 1)) % 4 = 3
          · rw [e1, if_pos ha, if_pos ha]
          · rw [e1, if_neg ha, if_neg ha]
            by_cases hmin : d ≤ bytes.length * 8 - dbi
            · have hmv : min d (bytes.length * 8 - dbi) = d := by omega
              have e3 : dbi + d + d * usableCnt (i + 1) p
                  = dbi + d * usableCnt i (p + 1) := by rw [e2]; ring
              rw [hmv, e3]
            · have hmv : min d (bytes.length * 8 - dbi) = bytes.length * 8 - dbi := by omega
              have hc1 : bytes.length * 8
                  ≤ dbi + (bytes.length * 8 - dbi) + d * usableCnt (i + 1) p := by omega
              have hc2 : bytes.length * 8 ≤ dbi + d * usableCnt i (p + 1) := by
                have e4 : d * usableCnt i (p + 1) = d + d * usableCnt (i + 1) p := by
                  rw [e2]; ring
                omega
              rw [hmv, if_pos hc1, if_pos hc2]

/-! ## Pointwise characterization of the bit-plane reader -/

theorem foldl_const_eq_iterate {α : Type} (g : α → α) :
    ∀ (n : Nat) (init : α), (List.range n).foldl (fun s _ => g s) init = g^[n] init := by
  intro n
  induction n with
  | zero => intro init; rfl
  | succ m ih =>
    intro init
    rw [List.range_succ, List.foldl_append, ih]
    simp only [List.foldl_cons, List.foldl_nil]
    rw [← Function.iterate_succ_apply' g m init]

theorem lsbReadByte_eq (pix : List Nat) (d bi : Nat) (hd : 0 < d)
    (hbnd : bi + lsbChunks d * d ≤ pix.length * 8) :
    lsbReadByte pix d bi = (lsbAssemble pix d bi (lsbChunks d), bi + lsbChunks d * d) := by
  unfold lsbReadByte
  rw [foldl_const_eq_iterate]
  have key : ∀ n, bi + n * d ≤ pix.length * 8 →
      (lsbReadStep pix d)^[n] (0, bi) = (lsbAssemble pix d bi n, bi + n * d) := by
    intro n
    induction n with
    | zero => intro _; simp [lsbAssemble]
    | succ m ih =>
      intro hm
      have hmd : (m + 1) * d = m * d + d := by ring
      rw [Function.iterate_succ_apply', ih (by omega)]
      have hlt : ¬ ((lsbAssemble pix d bi m, bi + m * d).2 ≥ pix.length * 8) := by
        simp only []
        omega
      rw [lsbReadStep, if_neg hlt]
      have e2 : bi + m * d + d = bi + (m + 1) * d := by ring
      rw [Prod.ext_iff]
      exact ⟨rfl, e2⟩
  have hcd : lsbChunks d * d ≤ lsbChunks d * d := le_refl _
  exact key (lsbChunks d) hbnd

theorem lsbReadGo_length (pix : List Nat) (d : Nat) :
    ∀ (n bi : Nat), (lsbReadGo pix d n bi).length = n := by
  intro n
  induction n with
  | zero => intro bi; rfl
  | succ m ih => intro bi; simp [lsbReadGo, ih]

theorem lsbReadGo_eq (pix : List Nat) (d : Nat) (hd : 0 < d) :
    ∀ (n bi : Nat), bi + n * (lsbChunks d * d) ≤ pix.length * 8 →
    lsbReadGo pix d n bi =
      (List.range n).map
        (fun t => lsbAssemble pix d (bi + t * (lsbChunks d * d)) (lsbChunks d) % 256) := by
  intro n
  induction n with
  | zero => intro bi _; rfl
  | succ m ih =>
    intro bi hbnd
    have hdist : (m + 1) * (lsbChunks d * d) = m * (lsbChunks d * d) + lsbChunks d * d := by ring
    have hstep : bi + lsbChunks d * d ≤ pix.length * 8 := by omega
    show (lsbReadByte pix d bi).1 % 256 :: lsbReadGo pix d m (lsbReadByte pix d bi).2 = _
    rw [lsbReadByte_eq pix d bi hd hstep]
    simp only []
    rw [ih (bi + lsbChunks d * d) (by omega)]
    rw [List.range_succ_eq_map, List.map_cons, List.map_map]
    congr 1
    · norm_num
    · apply List.map_congr_left
      intro t _
      simp only [Function.comp_apply]
      have e : bi + lsbChunks d * d + t * (lsbChunks d * d)
          = bi + (Nat.succ t) * (lsbChunks d * d) := by
        have : Nat.succ t = t + 1 := rfl
        rw [this]; ring
      rw [e]

theorem readBytesDirectly_length (pix : List Nat) (s len : Nat) :
    (readBytesDirectly pix s len).length = len := by
  simp [readBytesDirectly]

theorem readBytesDirectly_getD (pix : List Nat) (s len i : Nat) (hi : i < len) :
    (readBytesDirectly pix s len).getD i 0 = pix.getD (chan (s + i)) 0 := by
  unfold readBytesDirectly chan
  rw [List.getD_eq_getElem _ _ (by simpa [readBytesDirectly] using hi)]
  rw [List.getElem_map, List.getElem_range]

/-! ## Decomposition and bounds for assembled read values -/

theorem lsbAssemble_split (pix : List Nat) (d bi m : Nat) :
    ∀ n, ∃ r, r < 2 ^ (d * n) ∧
      lsbAssemble pix d bi (m + n) = lsbAssemble pix d bi m * 2 ^ (d * n) + r := by
  intro n
  induction n with
  | zero => exact ⟨0, by norm_num, by simp⟩
  | succ p ih =>
    obtain ⟨r, hr, he⟩ := ih
    set c := pix.getD (lsbChanIdx d (bi + (m + p) * d)) 0 &&& ((1 <<< d) - 1) with hc
    have hclt : c < 2 ^ d := masked_chunk_lt _ d
    refine ⟨r * 2 ^ d + c, ?_, ?_⟩
    · have hp : 2 ^ (d * (p + 1)) = 2 ^ (d * p) * 2 ^ d := by
        rw [← pow_add]; ring_nf
      have h1 : r * 2 ^ d + c < (r + 1) * 2 ^ d := by
        have : (r + 1) * 2 ^ d = r * 2 ^ d + 2 ^ d := by ring
        omega
      have h2 : (r + 1) * 2 ^ d ≤ 2 ^ (d * p) * 2 ^ d :=
        Nat.mul_le_mul_right _ (by omega)
      omega
    · have hme : m + (p + 1) = (m + p) + 1 := by omega
      rw [hme]
      show (lsbAssemble pix d bi (m + p) <<< d) ||| c = _
      rw [shiftLeft_or_eq_add _ _ _ hclt, he]
      have hp : 2 ^ (d * (p + 1)) = 2 ^ (d * p) * 2 ^ d := by
        rw [← pow_add]; ring_nf
      rw [hp]; ring

theorem lsbAssemble_lt (pix : List Nat) (d bi n : Nat) :
    lsbAssemble pix d bi n < 2 ^ (d * n) := by
  obtain ⟨r, hr, he⟩ := lsbAssemble_split pix d bi 0 n
  have h0 : lsbAssemble pix d bi 0 = 0 := rfl
  rw [show 0 + n = n from by omega] at he
  rw [he, h0]
  omega

/-! ## Pointwise characterization of the direct writer -/

theorem dirWriteGo_length (bytes : List Nat) :
    ∀ (l : List Nat) (bi : Nat), (dirWriteGo bytes l bi).length = l.length := by
  intro l bi
  induction l, bi using dirWriteGo.induct bytes <;>
    (rw [dirWriteGo.eq_def]; try simp_all) <;> (split <;> simp_all)

theorem writeBytesDirectly_length (imageData bytes : List Nat) :
    (writeBytesDirectly imageData bytes).length = imageData.length :=
  dirWriteGo_length bytes imageData 0

theorem dirIdx_zero : dirIdx 0 = 0 := by norm_num [dirIdx]

theorem dirIdx_one : dirIdx 1 = 1 := by norm_num [dirIdx]

theorem dirIdx_two : dirIdx 2 = 2 := by norm_num [dirIdx]

theorem dirWriteGo_getD_aux (bytes : List Nat) :
    ∀ (n : Nat) (l : List Nat), l.length ≤ n → ∀ (bi k : Nat), k < l.length →
    (dirWriteGo bytes l bi).getD k 0 =
      if k % 4 = 3 ∨ bytes.length ≤ bi + dirIdx k then l.getD k 0
      else bytes.getD (bi + dirIdx k) 0 := by
  intro n
  induction n with
  | zero => intro l hl bi k hk; omega
  | succ n ih =>
    intro l hl bi k hk
    rcases l with _ | ⟨r, _ | ⟨g, _ | ⟨b, _ | ⟨a, rest2⟩⟩⟩⟩
    · simp at hk
    · simp only [dirWriteGo]
      by_cases hge : bi ≥ bytes.length
      · rw [if_pos hge, if_pos (Or.inr (by unfold dirIdx; omega))]
      · rw [if_neg hge]
        have hk0 : k = 0 := by simp at hk; omega
        subst hk0
        simp only [List.getD_cons_zero]
        have hc : ¬ ((0:Nat) % 4 = 3 ∨ bytes.length ≤ bi + dirIdx 0) := by
          rw [dirIdx_zero]; omega
        rw [if_neg hc, dirIdx_zero, Nat.add_zero]
    · simp only [dirWriteGo]
      by_cases hge : bi ≥ bytes.length
      · rw [if_pos hge, if_pos (Or.inr (by unfold dirIdx; omega))]
      · rw [if_neg hge]
        rcases k with _ | _ | k
        · simp only [List.getD_cons_succ, List.getD_cons_zero]
          have hc : ¬ ((0:Nat) % 4 = 3 ∨ bytes.length ≤ bi + dirIdx 0) := by
            rw [dirIdx_zero]; omega
          rw [if_neg hc, dirIdx_zero, Nat.add_zero]
        · simp only [List.getD_cons_succ, List.getD_cons_zero]
          by_cases h1 : bi + 1 < bytes.length
          · have hc : ¬ ((1:Nat) % 4 = 3 ∨ bytes.length ≤ bi + dirIdx 1) := by
              rw [dirIdx_one]; omega
            rw [if_pos h1, if_neg hc, dirIdx_one]
          · have hc : ((1:Nat) % 4 = 3 ∨ bytes.length ≤ bi + dirIdx 1) := by
              rw [dirIdx_one]; omega
            rw [if_neg h1, if_pos hc]
        · simp at hk; omega
    · simp only [dirWriteGo]
      by_cases hge : bi ≥ bytes.length
      · rw [if_pos hge, if_pos (Or.inr (by unfold dirIdx; omega))]
      · rw [if_neg hge]
        rcases k with _ | _ | _ | k
        · simp only [List.getD_cons_succ, List.getD_cons_zero]
          have hc : ¬ ((0:Nat) % 4 = 3 ∨ bytes.length ≤ bi + dirIdx 0) := by
            rw [dirIdx_zero]; omega
          rw [if_neg hc, dirIdx_zero, Nat.add_zero]
        · simp only [List.getD_cons_succ, List.getD_cons_zero]
          by_cases h1 : bi + 1 < bytes.length
          · have hc : ¬ ((1:Nat) % 4 = 3 ∨ bytes.length ≤ bi + dirIdx 1) := by
              rw [dirIdx_one]; omega
            rw [if_pos h1, if_neg hc, dirIdx_one]
          · have hc : ((1:Nat) % 4 = 3 ∨ bytes.length ≤ bi + dirIdx 1) := by
              rw [dirIdx_one]; omega
            rw [if_neg h1, if_pos hc]
        · simp only [List.getD_cons_succ, List.getD_cons_zero]
          by_cases h2 : bi + 2 < bytes.length
          · have hc : ¬ ((2:Nat) % 4 = 3 ∨ bytes.length ≤ bi + dirIdx 2) := by
              rw [dirIdx_two]; omega
            rw [if_pos h2, if_neg hc, dirIdx_two]
          · have hc : ((2:Nat) % 4 = 3 ∨ bytes.length ≤ bi + dirIdx 2) := by
              rw [dirIdx_two]; omega
            rw [if_neg h2, if_pos hc]
        · simp at hk; omega
    · simp only [dirWriteGo]
      by_cases hge : bi ≥ bytes.length
      · rw [if_pos hge, if_pos (Or.inr (by unfold dirIdx; omega))]
      · rw [if_neg hge]
        rcases k with _ | _ | _ | _ | k
        · simp only [List.getD_cons_succ, List.getD_cons_zero]
          have hc : ¬ ((0:Nat) % 4 = 3 ∨ bytes.length ≤ bi + dirIdx 0) := by
            rw [dirIdx_zero]; omega
          rw [if_neg hc, dirIdx_zero, Nat.add_zero]
        · simp only [List.getD_cons_succ, List.getD_cons_zero]
          by_cases h1 : bi + 1 < bytes.length
          · have hc : ¬ ((1:Nat) % 4 = 3 ∨ bytes.length ≤ bi + dirIdx 1) := by
              rw [dirIdx_one]; omega
            rw [if_pos h1, if_neg hc, dirIdx_one]
          · have hc : ((1:Nat) % 4 = 3 ∨ bytes.length ≤ bi + dirIdx 1) := by
              rw [dirIdx_one]; omega
            rw [if_neg h1, if_pos hc]
        · simp only [List.getD_cons_succ, List.getD_cons_zero]
          by_cases h2 : bi + 2 < bytes.length
          · have hc : ¬ ((2:Nat) % 4 = 3 ∨ bytes.length ≤ bi + dirIdx 2) := by
              rw [dirIdx_two]; omega
            rw [if_pos h2, if_neg hc, dirIdx_two]
          · have hc : ((2:Nat) % 4 = 3 ∨ bytes.length ≤ bi + dirIdx 2) := by
              rw [dirIdx_two]; omega
            rw [if_neg h2, if_pos hc]
        · simp only [List.getD_cons_succ, List.getD_cons_zero]
          simp
        · simp only [List.getD_cons_succ]
          have hlen : rest2.length ≤ n := by simp at hl; omega
          have hk2 : k < rest2.length := by simp at hk; omega
          rw [ih rest2 hlen (bi + 3) k hk2]
          have e1 : (k + 1 + 1 + 1 + 1) % 4 = k % 4 := by omega
          have e2 : bi + dirIdx (k + 1 + 1 + 1 + 1) = bi + 3 + dirIdx k := by
            unfold dirIdx; omega
          rw [e1, e2]

theorem dirWriteGo_getD (bytes l : List Nat) (bi k : Nat) (hk : k < l.length) :
    (dirWriteGo bytes l bi).getD k 0 =
      if k % 4 = 3 ∨ bytes.length ≤ bi + dirIdx k then l.getD k 0
      else bytes.getD (bi + dirIdx k) 0 :=
  dirWriteGo_getD_aux bytes l.length l (le_refl _) bi k hk

/-! ## Header layout: `_createHeader` produces the exact wire format -/

theorem listSetAt_nil_src (dst : List Nat) (o : Nat) : listSetAt dst o [] = dst := by
  cases dst <;> cases o <;> rfl

theorem listSetAt_zero (src : List Nat) : ∀ (dst : List Nat), src.length ≤ dst.length →
    listSetAt dst 0 src = src ++ dst.drop src.length := by
  induction src with
  | nil => intro dst h; simp [listSetAt_nil_src]
  | cons s src ih =>
    intro dst h
    cases dst with
    | nil => simp at h
    | cons d dst' =>
      show s :: listSetAt dst' 0 src = _
      rw [ih dst' (by simpa using h)]
      simp

theorem listSetAt_append (src : List Nat) : ∀ (pre dst : List Nat),
    listSetAt (pre ++ dst) pre.length src = pre ++ listSetAt dst 0 src := by
  intro pre
  induction pre with
  | nil => intro dst; simp
  | cons p pre' ih =>
    intro dst
    cases src with
    | nil => simp [listSetAt_nil_src]
    | cons s src' =>
      show p :: listSetAt (pre' ++ dst) pre'.length (s :: src') = _
      rw [ih dst]
      simp

theorem listSetAt_chunk (pre : List Nat) (o m : Nat) (src : List Nat)
    (ho : o = pre.length) (hm : src.length ≤ m) :
    listSetAt (pre ++ List.replicate m 0) o src
      = (pre ++ src) ++ List.replicate (m - src.length) 0 := by
  subst ho
  rw [listSetAt_append, listSetAt_zero _ _ (by simp [hm]), List.drop_replicate,
    List.append_assoc]

theorem le64_length (n : Nat) : (le64 n).length = 8 := by
  simp [le64]

theorem createHeader_eq (fileSize : Nat) (fileName sha256Hash : List Nat)
    (isEncrypted : Bool) (encodingType : Nat) (isCompressed : Bool) (bitDepth : Nat)
    (hfn : fileName.length ≤ 255) (hsh : sha256Hash.length = 32) :
    createHeader fileSize fileName sha256Hash isEncrypted encodingType isCompressed bitDepth =
      .ok ((((([83, 67, encodingType % 256, if isCompressed then 1 else 0, bitDepth % 256] ++
        le64 fileSize) ++ [fileName.length]) ++ fileName.map (· % 256)) ++
        [if isEncrypted then 1 else 0]) ++ sha256Hash.map (· % 256)) := by
  unfold createHeader
  rw [if_neg (by omega)]
  simp only []
  have e1 : listSetAt (List.replicate 512 0) 0 [83, 67]
      = [83, 67] ++ List.replicate 510 0 := by
    have h := listSetAt_chunk [] 0 512 [83, 67] rfl (by norm_num)
    simp only [List.nil_append] at h
    rw [h]
    rfl
  rw [e1]
  have e2 : listSetAt ([83, 67] ++ List.replicate 510 0) 2 [encodingType % 256]
      = ([83, 67] ++ [encodingType % 256]) ++ List.replicate 509 0 :=
    listSetAt_chunk [83, 67] 2 510 [encodingType % 256] rfl (by norm_num)
  rw [e2, show ([83, 67] ++ [encodingType % 256]) = [83, 67, encodingType % 256] from by simp]
  have e3 : listSetAt ([83, 67, encodingType % 256] ++ List.replicate 509 0) 3
        [if isCompressed then 1 else 0]
      = ([83, 67, encodingType % 256] ++ [if isCompressed then 1 else 0]) ++
        List.replicate 508 0 :=
    listSetAt_chunk [83, 67, encodingType % 256] 3 509
      [if isCompressed then 1 else 0] rfl (by norm_num)
  rw [e3, show ([83, 67, encodingType % 256] ++ [if isCompressed then 1 else 0])
      = [83, 67, encodingType % 256, if isCompressed then 1 else 0] from by simp]
  have e4 : listSetAt ([83, 67, encodingType % 256, if isCompressed then 1 else 0] ++
        List.replicate 508 0) 4 [bitDepth % 256]
      = ([83, 67, encodingType % 256, if isCompressed then 1 else 0] ++ [bitDepth % 256]) ++
        List.replicate 507 0 :=
    listSetAt_chunk [83, 67, encodingType % 256, if isCompressed then 1 else 0] 4 508
      [bitDepth % 256] rfl (by norm_num)
  rw [e4, show ([83, 67, encodingType % 256, if isCompressed then 1 else 0] ++ [bitDepth % 256])
      = [83, 67, encodingType % 256, if isCompressed then 1 else 0, bitDepth % 256] from by simp]
  have e5 : listSetAt
        ([83, 67, encodingType % 256, if isCompressed then 1 else 0, bitDepth % 256] ++
          List.replicate 507 0) 5 (le64 fileSize)
      = (([83, 67, encodingType % 256, if isCompressed then 1 else 0, bitDepth % 256] ++
          le64 fileSize)) ++ List.replicate 499 0 := by
    have h := listSetAt_chunk
      [83, 67, encodingType % 256, if isCompressed then 1 else 0, bitDepth % 256] 5 507
      (le64 fileSize) rfl (by rw [le64_length]; norm_num)
    rw [h, le64_length]
  rw [e5]
  have e6 : listSetAt
        (([83, 67, encodingType % 256, if isCompressed then 1 else 0, bitDepth % 256] ++
          le64 fileSize) ++ List.replicate 499 0) 13 [fileName.length]
      = ((([83, 67, encodingType % 256, if isCompressed then 1 else 0, bitDepth % 256] ++
          le64 fileSize)) ++ [fileName.length]) ++ List.replicate 498 0 :=
    listSetAt_chunk
      ([83, 67, encodingType % 256, if isCompressed then 1 else 0, bitDepth % 256] ++
        le64 fileSize) 13 499 [fileName.length] (by simp [le64_length]; try omega) (by norm_num)
  rw [e6]
  have e7 : listSetAt
        ((([83, 67, encodingType % 256, if isCompressed then 1 else 0, bitDepth % 256] ++
          le64 fileSize) ++ [fileName.length]) ++ List.replicate 498 0) 14
          (fileName.map (· % 256))
      = (((([83, 67, encodingType % 256, if isCompressed then 1 else 0, bitDepth % 256] ++
          le64 fileSize) ++ [fileName.length]) ++ fileName.map (· % 256))) ++
          List.replicate (498 - fileName.length) 0 := by
    have h := listSetAt_chunk
      (([83, 67, encodingType % 256, if isCompressed then 1 else 0, bitDepth % 256] ++
        le64 fileSize) ++ [fileName.length]) 14 498 (fileName.map (· % 256))
      (by simp [le64_length]; try omega) (by simp; try omega)
    rw [h]
    have hl : (fileName.map (· % 256)).length = fileName.length := by simp
    rw [hl]
  rw [e7]
  have e8 : listSetAt
        ((((([83, 67, encodingType % 256, if isCompressed then 1 else 0, bitDepth % 256] ++
          le64 fileSize) ++ [fileName.length]) ++ fileName.map (· % 256))) ++
          List.replicate (498 - fileName.length) 0) (14 + fileName.length)
          [if isEncrypted then 1 else 0]
      = ((((([83, 67, encodingType % 256, if isCompressed then 1 else 0, bitDepth % 256] ++
          le64 fileSize) ++ [fileName.length]) ++ fileName.map (· % 256)) ++
          [if isEncrypted then 1 else 0])) ++ List.replicate (497 - fileName.length) 0 := by
    have h := listSetAt_chunk
      ((([83, 67, encodingType % 256, if isCompressed then 1 else 0, bitDepth % 256] ++
        le64 fileSize) ++ [fileName.length]) ++ fileName.map (· % 256))
      (14 + fileName.length) (498 - fileName.length)
      [if isEncrypted then 1 else 0] (by simp [le64_length]; try omega) (by simp; try omega)
    rw [h]
    have hl : 498 - fileName.length - List.length [if isEncrypted then 1 else 0]
        = 497 - fileName.length := by simp; omega
    rw [hl]
  rw [e8]
  have e9 : listSetAt
        (((((([83, 67, encodingType % 256, if isCompressed then 1 else 0, bitDepth % 256] ++
          le64 fileSize) ++ [fileName.length]) ++ fileName.map (· % 256)) ++
          [if isEncrypted then 1 else 0])) ++ List.replicate (497 - fileName.length) 0)
          (15 + fileName.length) (sha256Hash.map (· % 256))
      = (((((([83, 67, encodingType % 256, if isCompressed then 1 else 0, bitDepth % 256] ++
          le64 fileSize) ++ [fileName.length]) ++ fileName.map (· % 256)) ++
          [if isEncrypted then 1 else 0]) ++ sha256Hash.map (· % 256))) ++
          List.replicate (497 - fileName.length - 32) 0 := by
    have h := listSetAt_chunk
      (((([83, 67, encodingType % 256, if isCompressed then 1 else 0, bitDepth % 256] ++
        le64 fileSize) ++ [fileName.length]) ++ fileName.map (· % 256)) ++
        [if isEncrypted then 1 else 0])
      (15 + fileName.length) (497 - fileName.length)
      (sha256Hash.map (· % 256)) (by simp [le64_length]; try omega) (by simp [hsh]; try omega)
    rw [h]
    have hl : (sha256Hash.map (· % 256)).length = 32 := by simp [hsh]
    rw [hl]
  rw [e9]
  have hlen : ((((([83, 67, encodingType % 256, if isCompressed then 1 else 0, bitDepth % 256] ++
        le64 fileSize) ++ [fileName.length]) ++ fileName.map (· % 256)) ++
        [if isEncrypted then 1 else 0]) ++ sha256Hash.map (· % 256)).length
      = 47 + fileName.length := by
    simp [le64_length, hsh]; omega
  rw [List.take_left' hlen]

/-! ## Little-endian 64-bit round trip and small utilities -/

theorem le64dec_le64 (n : Nat) (h : n < 2 ^ 64) : le64dec (le64 n) = n := by
  have hr : List.range 8 = [0, 1, 2, 3, 4, 5, 6, 7] := rfl
  unfold le64dec le64
  rw [hr]
  simp only [List.map_cons, List.map_nil, List.foldl_cons, List.foldl_nil,
    List.getD_cons_zero, List.getD_cons_succ]
  norm_num
  omega

theorem map_mod_eq_self (l : List Nat) (hl : ∀ b ∈ l, b < 256) : l.map (· % 256) = l := by
  induction l with
  | nil => rfl
  | cons x xs ih =>
    have hx : x < 256 := hl x (by simp)
    simp only [List.map_cons]
    rw [Nat.mod_eq_of_lt hx, ih (fun b hb => hl b (by simp [hb]))]

theorem ceilSqrt_sq_ge (n : Nat) : n ≤ ceilSqrt n * ceilSqrt n := by
  unfold ceilSqrt
  split
  · omega
  · have h := Nat.lt_succ_sqrt n
    have h2 : (Nat.sqrt n).succ = Nat.sqrt n + 1 := rfl
    rw [h2] at h
    omega

theorem getD_eq_getD_of_lt_length (l1 l2 : List Nat) (k : Nat) (hk : k < l1.length) :
    (l1 ++ l2).getD k 0 = l1.getD k 0 :=
  List.getD_append l1 l2 0 k hk

/-! ## Byte reassembly: per-depth identities and chunk bridging -/

set_option maxRecDepth 4096 in
theorem byteReassemble_id_1 : ∀ b, b < 256 → byteReassemble b 1 8 % 256 = b := by decide

set_option maxRecDepth 4096 in
theorem byteReassemble_id_2 : ∀ b, b < 256 → byteReassemble b 2 4 % 256 = b := by decide

set_option maxRecDepth 4096 in
theorem byteReassemble_id_4 : ∀ b, b < 256 → byteReassemble b 4 2 % 256 = b := by decide

set_option maxRecDepth 4096 in
theorem byteReassemble_id_8 : ∀ b, b < 256 → byteReassemble b 8 1 % 256 = b := by decide

theorem lsbGroup_eq_byteGroup (B : List Nat) (d k t : Nat)
    (hk : k < B.length) (ht : t * d + d ≤ 8) :
    lsbGroup B d (8 * k + t * d) = byteGroup (B.getD k 0) d t := by
  unfold lsbGroup byteGroup
  apply List.foldl_ext
  intro acc j hj
  have hjd : j < d := List.mem_range.mp hj
  have hguard : ¬ (8 * k + t * d + j ≥ B.length * 8) := by omega
  rw [if_neg hguard]
  unfold streamBit
  have hdiv : (8 * k + t * d + j) / 8 = k := by omega
  have hmod : (8 * k + t * d + j) % 8 = t * d + j := by omega
  rw [hdiv, hmod]

theorem lsbAssemble_congr (W : List Nat) (d bi b : Nat) :
    ∀ n, (∀ t, t < n →
      W.getD (lsbChanIdx d (bi + t * d)) 0 &&& ((1 <<< d) - 1) = byteGroup b d t) →
    lsbAssemble W d bi n = byteReassemble b d n := by
  intro n
  induction n with
  | zero => intro _; rfl
  | succ m ih =>
    intro h
    show (lsbAssemble W d bi m <<< d) ||| _ = (byteReassemble b d m <<< d) ||| _
    rw [ih (fun t ht => h t (by omega)), h m (by omega)]

theorem writeDataWithBitDepth_getD (imageData bytes : List Nat) (d k : Nat)
    (hk : k < imageData.length) :
    (writeDataWithBitDepth imageData bytes d).getD k 0 =
      if (0 + k) % 4 = 3 then imageData.getD k 0
      else if bytes.length * 8 ≤ 0 + d * usableCnt 0 k then imageData.getD k 0
      else (imageData.getD k 0 &&& (255 <<< d)) ||| lsbGroup bytes d (0 + d * usableCnt 0 k) :=
  lsbWriteGo_getD bytes d imageData 0 0 k hk

/-! ## Bit-plane round trip at depths dividing 8 -/

theorem roundtrip_bitDepth (d : Nat) (hd : 0 < d) (hd8 : d * (8 / d) = 8)
    (hchunks : lsbChunks d = 8 / d)
    (hbyte : ∀ b, b < 256 → byteReassemble b d (8 / d) % 256 = b)
    (B buf : List Nat) (hbuf4 : buf.length % 4 = 0)
    (hcap : B.length * (8 / d) ≤ 3 * (buf.length / 4))
    (hB : ∀ b ∈ B, b < 256) :
    readDataWithBitDepth (writeDataWithBitDepth buf B d) 0 B.length d = B := by
  have h8 : d * lsbChunks d = 8 := by rw [hchunks]; exact hd8
  have hq1 : 1 ≤ lsbChunks d := by
    rcases Nat.eq_zero_or_pos (lsbChunks d) with h | h
    · rw [h] at h8; simp at h8
    · exact h
  have hWlen : (writeDataWithBitDepth buf B d).length = buf.length :=
    writeDataWithBitDepth_length buf B d
  have hlenB : B.length ≤ buf.length := by
    have h1 : B.length ≤ B.length * lsbChunks d := Nat.le_mul_of_pos_right _ hq1
    rw [hchunks] at h1
    omega
  -- the reader never hits its break guard
  have hnb : 0 * 8 + B.length * (lsbChunks d * d) ≤ (writeDataWithBitDepth buf B d).length * 8 := by
    have he : B.length * (lsbChunks d * d) = B.length * 8 := by
      rw [show lsbChunks d * d = d * lsbChunks d from by ring, h8]
    rw [he, hWlen]
    omega
  have hread := lsbReadGo_eq (writeDataWithBitDepth buf B d) d hd B.length 0 (by simpa using hnb)
  apply List.ext_getElem
  · unfold readDataWithBitDepth
    rw [lsbReadGo_length]
  intro k h1 h2
  rw [← List.getD_eq_getElem _ 0 h1, ← List.getD_eq_getElem _ 0 h2]
  unfold readDataWithBitDepth
  rw [show (0 : Nat) * 8 = 0 from rfl, hread]
  have hk : k < B.length := h2
  have hkm : k < ((List.range B.length).map
      (fun t => lsbAssemble (writeDataWithBitDepth buf B d) d
        (0 + t * (lsbChunks d * d)) (lsbChunks d) % 256)).length := by
    simp [hk]
  rw [List.getD_eq_getElem _ 0 hkm, List.getElem_map, List.getElem_range]
  -- chunk values read back are the written groups
  have hchunkeq : ∀ t, t < lsbChunks d →
      (writeDataWithBitDepth buf B d).getD
          (lsbChanIdx d (0 + k * (lsbChunks d * d) + t * d)) 0 &&& ((1 <<< d) - 1)
        = byteGroup (B.getD k 0) d t := by
    intro t ht
    have hcd : 0 + k * (lsbChunks d * d) + t * d = (k * lsbChunks d + t) * d := by ring
    rw [hcd, lsbChanIdx_mul d _ hd]
    have hc : k * lsbChunks d + t < B.length * lsbChunks d := by
      have ha : k * lsbChunks d + t < (k + 1) * lsbChunks d := by
        have he : (k + 1) * lsbChunks d = k * lsbChunks d + lsbChunks d := by ring
        omega
      have hb2 : (k + 1) * lsbChunks d ≤ B.length * lsbChunks d :=
        Nat.mul_le_mul_right _ (by omega)
      omega
    have hchanlt : chan (k * lsbChunks d + t) < buf.length := by
      apply chan_lt hbuf4
      have hcap2 : B.length * lsbChunks d ≤ 3 * (buf.length / 4) := by
        rw [hchunks]; exact hcap
      omega
    have hw := writeDataWithBitDepth_getD buf B d (chan (k * lsbChunks d + t)) hchanlt
    rw [usableCnt_zero_chan] at hw
    have halpha : ¬ ((0 + chan (k * lsbChunks d + t)) % 4 = 3) := by
      have := chan_mod_ne (k * lsbChunks d + t)
      omega
    rw [if_neg halpha] at hw
    have hdc : d * (k * lsbChunks d + t) + d ≤ B.length * 8 := by
      calc d * (k * lsbChunks d + t) + d = d * (k * lsbChunks d + t + 1) := by ring
        _ ≤ d * (B.length * lsbChunks d) := Nat.mul_le_mul_left _ (by omega)
        _ = B.length * (d * lsbChunks d) := by ring
        _ = B.length * 8 := by rw [h8]
    have hginb : ¬ (B.length * 8 ≤ 0 + d * (k * lsbChunks d + t)) := by omega
    rw [if_neg hginb] at hw
    rw [hw, or_low_mask _ _ d (lsbGroup_lt B d _)]
    have he : 0 + d * (k * lsbChunks d + t) = 8 * k + t * d := by
      calc 0 + d * (k * lsbChunks d + t) = k * (d * lsbChunks d) + t * d := by ring
        _ = 8 * k + t * d := by rw [h8]; ring
    rw [he]
    exact lsbGroup_eq_byteGroup B d k t hk (by
      have : (t + 1) * d ≤ lsbChunks d * d := Nat.mul_le_mul_right _ (by omega)
      have he2 : lsbChunks d * d = 8 := by rw [show lsbChunks d * d = d * lsbChunks d from by ring, h8]
      have he3 : (t + 1) * d = t * d + d := by ring
      omega)
  have hasm := lsbAssemble_congr (writeDataWithBitDepth buf B d) d
    (0 + k * (lsbChunks d * d)) (B.getD k 0) (lsbChunks d)
    (fun t ht => hchunkeq t ht)
  rw [hasm, hchunks]
  exact hbyte (B.getD k 0) (hB _ (by
    rw [List.getD_eq_getElem _ 0 hk]
    exact List.getElem_mem _))

/-! ## Claim C10 -/

/-- C10: the bit-plane pixel codec round-trips exactly at the bit depths
dividing 8: for `d ∈ {1,2,4,8}`, any byte sequence and any RGBA buffer (length
divisible by 4) with enough usable channels, writing then reading back returns
the bytes unchanged; for `d ∈ {3,5,6,7}` the reader's `ceil(8/d)`-channels-per-
byte addressing misaligns with the writer's continuous bit stream, and the
read-back equality fails on concrete witnesses. -/
theorem C10_bitplane_roundtrip :
    (∀ d ∈ ([1, 2, 4, 8] : List Nat), ∀ (B buf : List Nat),
      buf.length % 4 = 0 → B.length * (8 / d) ≤ 3 * (buf.length / 4) →
      (∀ b ∈ B, b < 256) →
      readDataWithBitDepth (writeDataWithBitDepth buf B d) 0 B.length d = B) ∧
    (∀ d ∈ ([3, 5, 6, 7] : List Nat), ∃ B buf : List Nat,
      buf.length % 4 = 0 ∧ B.length * ((8 + d - 1) / d) ≤ 3 * (buf.length / 4) ∧
      (∀ b ∈ B, b < 256) ∧
      readDataWithBitDepth (writeDataWithBitDepth buf B d) 0 B.length d ≠ B) := by
  constructor
  · intro d hd B buf hbuf4 hcap hB
    fin_cases hd
    · exact roundtrip_bitDepth 1 (by norm_num) (by norm_num) rfl byteReassemble_id_1
        B buf hbuf4 hcap hB
    · exact roundtrip_bitDepth 2 (by norm_num) (by norm_num) rfl byteReassemble_id_2
        B buf hbuf4 hcap hB
    · exact roundtrip_bitDepth 4 (by norm_num) (by norm_num) rfl byteReassemble_id_4
        B buf hbuf4 hcap hB
    · exact roundtrip_bitDepth 8 (by norm_num) (by norm_num) rfl byteReassemble_id_8
        B buf hbuf4 hcap hB
  · intro d hd
    fin_cases hd
    · exact ⟨[255], List.replicate 16 0, by decide, by decide, by decide, by decide⟩
    · exact ⟨[255], List.replicate 16 0, by decide, by decide, by decide, by decide⟩
    · exact ⟨[255], List.replicate 16 0, by decide, by decide, by decide, by decide⟩
    · exact ⟨[255], List.replicate 16 0, by decide, by decide, by decide, by decide⟩

/-- Witness for C10: the depth-1 round trip evaluated on a concrete payload and
a concrete 6-pixel buffer. -/
theorem C10_bitplane_roundtrip_witness :
    readDataWithBitDepth (writeDataWithBitDepth (List.replicate 24 7) [170, 5] 1) 0 2 1
      = [170, 5] :=
  C10_bitplane_roundtrip.1 1 (by decide) [170, 5] (List.replicate 24 7)
    (by decide) (by decide) (by decide)

/-! ## Claim C7 -/

/-- C7: neither embedding strategy ever modifies an alpha byte (buffer index
congruent to 3 mod 4); both writers also preserve the buffer length, so only
R, G, B channel bytes are ever modified. -/
theorem C7_alpha_preserved (buf bytes : List Nat) (d k : Nat)
    (hd1 : 1 ≤ d) (hd8 : d ≤ 8) (hk : k % 4 = 3) :
    (writeBytesDirectly buf bytes).getD k 0 = buf.getD k 0 ∧
    (writeDataWithBitDepth buf bytes d).getD k 0 = buf.getD k 0 ∧
    (writeBytesDirectly buf bytes).length = buf.length ∧
    (writeDataWithBitDepth buf bytes d).length = buf.length := by
  refine ⟨?_, ?_, writeBytesDirectly_length buf bytes, writeDataWithBitDepth_length buf bytes d⟩
  · by_cases hkl : k < buf.length
    · unfold writeBytesDirectly
      rw [dirWriteGo_getD bytes buf 0 k hkl, if_pos (Or.inl hk)]
    · have h1 : buf.length ≤ k := by omega
      have h2 : (writeBytesDirectly buf bytes).length ≤ k := by
        rw [writeBytesDirectly_length]; omega
      rw [List.getD_eq_default _ _ h1, List.getD_eq_default _ _ h2]
  · by_cases hkl : k < buf.length
    · rw [writeDataWithBitDepth_getD buf bytes d k hkl]
      have h0 : (0 + k) % 4 = 3 := by omega
      rw [if_pos h0]
    · have h1 : buf.length ≤ k := by omega
      have h2 : (writeDataWithBitDepth buf bytes d).length ≤ k := by
        rw [writeDataWithBitDepth_length]; omega
      rw [List.getD_eq_default _ _ h1, List.getD_eq_default _ _ h2]

/-- Witness for C7: alpha byte 3 of a one-pixel buffer survives both writers. -/
theorem C7_alpha_preserved_witness :
    (writeBytesDirectly [10, 20, 30, 40] [255, 255, 255, 255]).getD 3 0 = 40 ∧
    (writeDataWithBitDepth [10, 20, 30, 40] [255, 255, 255, 255] 1).getD 3 0 = 40 := by
  obtain ⟨h1, h2, _, _⟩ :=
    C7_alpha_preserved [10, 20, 30, 40] [255, 255, 255, 255] 1 3 (by decide) (by decide) (by decide)
  exact ⟨h1.trans (by decide), h2.trans (by decide)⟩

/-! ## Claim C5 -/

/-- Counterexample to C5 as stated: the header for an empty filename is 47
bytes, not 46 — the fixed fields sum to 2+1+1+1+8+1+1+32 = 47, so the total is
`47 + fileNameLength`, not `46 + fileNameLength`. -/
theorem C5_counterexample :
    (createHeader 5 [] (List.replicate 32 7) false 0 false 0).map List.length = .ok 47 ∧
    (47 : Nat) ≠ 46 + 0 := by
  exact ⟨by rfl, by decide⟩

/-- C5 (amended): the header encoder emits exactly, in order and with no
padding, the 2-byte signature 83 67 ("SC"), 1-byte encodingType, 1-byte
isCompressed, 1-byte bitDepth, 8-byte little-endian fileSize, 1-byte
fileNameLength, the filename bytes, 1-byte isEncrypted and the 32-byte
sha256Hash — a total of 47 + fileNameLength bytes — and fails with
`FilenameTooLongError` exactly when the filename exceeds 255 bytes. -/
theorem C5_header_wire_format (fileSize : Nat) (fileName sha256Hash : List Nat)
    (isEncrypted : Bool) (encodingType : Nat) (isCompressed : Bool) (bitDepth : Nat) :
    (createHeader fileSize fileName sha256Hash isEncrypted encodingType isCompressed bitDepth
        = .error .filenameTooLong ↔ fileName.length > 255) ∧
    (fileName.length ≤ 255 → sha256Hash.length = 32 → (∀ b ∈ fileName, b < 256) →
      (∀ b ∈ sha256Hash, b < 256) → encodingType < 256 → bitDepth < 256 →
      createHeader fileSize fileName sha256Hash isEncrypted encodingType isCompressed bitDepth
        = .ok ([83, 67, encodingType, if isCompressed then 1 else 0, bitDepth] ++
            le64 fileSize ++ [fileName.length] ++ fileName ++
            [if isEncrypted then 1 else 0] ++ sha256Hash) ∧
      (∀ h, createHeader fileSize fileName sha256Hash isEncrypted encodingType isCompressed
          bitDepth = .ok h → h.length = 47 + fileName.length)) ∧
    ((le64 fileSize).length = 8 ∧ (fileSize < 2 ^ 64 → le64dec (le64 fileSize) = fileSize)) := by
  refine ⟨?_, ?_, le64_length fileSize, le64dec_le64 fileSize⟩
  · constructor
    · intro h
      by_contra hc
      unfold createHeader at h
      rw [if_neg (by omega)] at h
      exact Except.noConfusion h
    · intro h
      unfold createHeader
      rw [if_pos h]
  · intro hfn hsh hfnb hshb henc hbd
    have heq := createHeader_eq fileSize fileName sha256Hash isEncrypted encodingType
      isCompressed bitDepth hfn hsh
    constructor
    · rw [heq]
      congr 1
      rw [map_mod_eq_self fileName hfnb, map_mod_eq_self sha256Hash hshb,
        Nat.mod_eq_of_lt henc, Nat.mod_eq_of_lt hbd]
      try simp [List.append_assoc]
    · intro h hh
      rw [heq] at hh
      have : h = ((((([83, 67, encodingType % 256, if isCompressed then 1 else 0,
          bitDepth % 256] ++ le64 fileSize) ++ [fileName.length]) ++ fileName.map (· % 256)) ++
          [if isEncrypted then 1 else 0]) ++ sha256Hash.map (· % 256)) := by
        cases hh; rfl
      rw [this]
      simp [le64_length, hsh]
      try omega

/-- Witness for C5 (amended): a concrete header — filename "a" (1 byte),
fileSize 7, encrypted, uncompressed, Direct — is exactly the 48-byte layout. -/
theorem C5_header_wire_format_witness :
    createHeader 7 [97] (List.replicate 32 1) true 0 false 0
      = .ok ([83, 67, 0, 0, 0, 7, 0, 0, 0, 0, 0, 0, 0, 1, 97, 1] ++ List.replicate 32 1) := by
  have h := ((C5_header_wire_format 7 [97] (List.replicate 32 1) true 0 false 0).2.1
    (by decide) (by decide) (by decide) (by decide) (by decide) (by decide)).1
  exact h.trans (by rfl)

/-! ## Pipeline `totalData` shape lemmas -/

theorem hideTotalData_eq (deflate : List Nat → List Nat)
    (encrypt : List Nat → List Nat → List Nat) (sha : List Nat → List Nat)
    (payload fileName : List Nat) (password : Option (List Nat)) (bitDepth : Nat)
    (hfn : fileName.length ≤ 255) (hsha : ShaOk sha) :
    hideTotalData deflate encrypt sha payload fileName password bitDepth
      = .ok (((((([83, 67, 1, 1, bitDepth % 256] ++
          le64 (hideProcessedData deflate encrypt payload password).length) ++
          [fileName.length]) ++ fileName.map (· % 256)) ++
          [if password.isSome then 1 else 0]) ++ (sha payload).map (· % 256)) ++
          hideProcessedData deflate encrypt payload password) := by
  unfold hideTotalData
  simp only []
  rw [createHeader_eq _ _ _ _ _ _ _ hfn (hsha payload).1]
  rfl

theorem hideTotalData_length (deflate : List Nat → List Nat)
    (encrypt : List Nat → List Nat → List Nat) (sha : List Nat → List Nat)
    (payload fileName : List Nat) (password : Option (List Nat)) (bitDepth : Nat)
    (hfn : fileName.length ≤ 255) (hsha : ShaOk sha) :
    ∀ td, hideTotalData deflate encrypt sha payload fileName password bitDepth = .ok td →
      td.length = 47 + fileName.length +
        (hideProcessedData deflate encrypt payload password).length := by
  intro td h
  rw [hideTotalData_eq deflate encrypt sha payload fileName password bitDepth hfn hsha] at h
  cases h
  simp [le64_length, (hsha payload).1]
  try omega

theorem createCarrierTotalData_eq (encrypt : List Nat → List Nat → List Nat)
    (sha : List Nat → List Nat) (payload fileName : List Nat) (password : Option (List Nat))
    (hfn : fileName.length ≤ 255) (hsha : ShaOk sha)
    (hsize : payload.length ≤ 1024 * 1024 * 1024) :
    createCarrierTotalData encrypt sha payload fileName password
      = .ok (((((([83, 67, 0, 0, 0] ++
          le64 (createProcessedData encrypt payload password).length) ++
          [fileName.length]) ++ fileName.map (· % 256)) ++
          [if createIsEncrypted password then 1 else 0]) ++ (sha payload).map (· % 256)) ++
          createProcessedData encrypt payload password) := by
  unfold createCarrierTotalData
  simp only []
  rw [if_neg (by omega)]
  rw [createHeader_eq _ _ _ _ _ _ _ hfn (hsha payload).1]
  rfl

theorem createCarrierTotalData_length (encrypt : List Nat → List Nat → List Nat)
    (sha : List Nat → List Nat) (payload fileName : List Nat) (password : Option (List Nat))
    (hfn : fileName.length ≤ 255) (hsha : ShaOk sha)
    (hsize : payload.length ≤ 1024 * 1024 * 1024) :
    ∀ td, createCarrierTotalData encrypt sha payload fileName password = .ok td →
      td.length = 47 + fileName.length +
        (createProcessedData encrypt payload password).length := by
  intro td h
  rw [createCarrierTotalData_eq encrypt sha payload fileName password hfn hsha hsize] at h
  cases h
  simp [le64_length, (hsha payload).1]
  try omega

/-! ## Claim C3 -/

/-- C3: for an existing carrier the capacity is
`floor(width * height * 3 * bitDepth / 8)` bytes; Hide raises
`CapacityExceededError` carrying required/available counts exactly when
`header length (47 + fileNameLength) + processed payload length` exceeds it
(so a total of exactly `capacity` succeeds and `capacity + 1` fails); any
failure of the pixel-level pipeline is that capacity error, and on failure the
result does not depend on the carrier's pixels — the check precedes any write. -/
theorem C3_capacity_check (deflate : List Nat → List Nat)
    (encrypt : List Nat → List Nat → List Nat) (sha : List Nat → List Nat)
    (payload fileName : List Nat) (password : Option (List Nat))
    (bitDepth width height : Nat) (carrier : List Nat)
    (hfn : fileName.length ≤ 255) (hsha : ShaOk sha) :
    (47 + fileName.length + (hideProcessedData deflate encrypt payload password).length
        > width * height * 3 * bitDepth / 8 →
      hideInExistingImageAsync deflate encrypt sha payload fileName password bitDepth
          width height carrier
        = .error (.capacityExceeded
            (47 + fileName.length +
              (hideProcessedData deflate encrypt payload password).length)
            (width * height * 3 * bitDepth / 8))) ∧
    (47 + fileName.length + (hideProcessedData deflate encrypt payload password).length
        ≤ width * height * 3 * bitDepth / 8 →
      ∃ totalData,
        hideTotalData deflate encrypt sha payload fileName password bitDepth = .ok totalData ∧
        totalData.length = 47 + fileName.length +
          (hideProcessedData deflate encrypt payload password).length ∧
        hideInExistingImageAsync deflate encrypt sha payload fileName password bitDepth
            width height carrier
          = .ok (writeDataWithBitDepth carrier totalData bitDepth)) ∧
    (∀ e, hideInExistingImageAsync deflate encrypt sha payload fileName password bitDepth
          width height carrier = .error e →
      e = .capacityExceeded
            (47 + fileName.length +
              (hideProcessedData deflate encrypt payload password).length)
            (width * height * 3 * bitDepth / 8) ∧
      47 + fileName.length + (hideProcessedData deflate encrypt payload password).length
        > width * height * 3 * bitDepth / 8) ∧
    (47 + fileName.length + (hideProcessedData deflate encrypt payload password).length
        > width * height * 3 * bitDepth / 8 → ∀ carrier2,
      hideInExistingImageAsync deflate encrypt sha payload fileName password bitDepth
          width height carrier
        = hideInExistingImageAsync deflate encrypt sha payload fileName password bitDepth
            width height carrier2) := by
  have htd := hideTotalData_eq deflate encrypt sha payload fileName password bitDepth hfn hsha
  have hlen := hideTotalData_length deflate encrypt sha payload fileName password bitDepth
    hfn hsha _ htd
  refine ⟨?_, ?_, ?_, ?_⟩
  · intro hover
    unfold hideInExistingImageAsync
    rw [htd]
    simp only []
    rw [hlen, if_pos (by omega)]
  · intro hfit
    refine ⟨_, htd, hlen, ?_⟩
    unfold hideInExistingImageAsync
    rw [htd]
    simp only []
    rw [hlen, if_neg (by omega)]
  · intro e he
    unfold hideInExistingImageAsync at he
    rw [htd] at he
    simp only [] at he
    rw [hlen] at he
    by_cases hc : 47 + fileName.length +
        (hideProcessedData deflate encrypt payload password).length
        > width * height * 3 * bitDepth / 8
    · rw [if_pos hc] at he
      cases he
      exact ⟨rfl, hc⟩
    · rw [if_neg hc] at he
      exact Except.noConfusion he
  · intro hover carrier2
    unfold hideInExistingImageAsync
    rw [htd]
    simp only []
    rw [hlen, if_pos (by omega), if_pos (by omega)]

theorem shaStub_ok : ShaOk shaStub := by
  intro data
  constructor
  · simp [shaStub]
  · intro b hb
    simp [shaStub] at hb
    obtain ⟨i, hi, he⟩ := hb
    omega

/-- Witness for C3: `HELLO` under filename `a.txt` needs 58 bytes; an 8-by-8
carrier at depth 1 holds 24, so Hide fails with the exact counts, and a
40-by-4 carrier at depth 1 (capacity 60) takes a 60-byte total exactly. -/
theorem C3_capacity_check_witness :
    hideInExistingImageAsync deflStub encStub shaStub helloPayload helloName none 1 8 8
        (List.replicate 256 0)
      = .error (.capacityExceeded 58 24) ∧
    (hideInExistingImageAsync deflStub encStub shaStub [1, 2, 3, 4, 5, 6, 7] helloName none 1
        40 4 (List.replicate 640 0)).isOk = true := by
  constructor
  · have h := (C3_capacity_check deflStub encStub shaStub helloPayload helloName none 1 8 8
      (List.replicate 256 0) (by decide) shaStub_ok).1 (by decide)
    exact h.trans (by rfl)
  · have h := (C3_capacity_check deflStub encStub shaStub [1, 2, 3, 4, 5, 6, 7] helloName none 1
      40 4 (List.replicate 640 0) (by decide) shaStub_ok).2.1 (by decide)
    obtain ⟨td, _, _, hrun⟩ := h
    rw [hrun]
    rfl

/-! ## Claim C9 -/

/-- C9: the LSB (hide-in-existing) pipeline always sets the header's
isCompressed byte (offset 3) to 1 and its processed payload is the deflated
payload, encrypted afterwards when a password is present; the Direct
(generate-new-image) pipeline always sets it to 0 and never compresses —
for every payload, filename, password and bit depth. -/
theorem C9_compression_policy (deflate : List Nat → List Nat)
    (encrypt : List Nat → List Nat → List Nat) (sha : List Nat → List Nat)
    (payload fileName : List Nat) (password : Option (List Nat)) (bitDepth : Nat)
    (hfn : fileName.length ≤ 255) (hsha : ShaOk sha) :
    (∀ td, hideTotalData deflate encrypt sha payload fileName password bitDepth = .ok td →
      td.getD 3 0 = 1 ∧
      td.drop (47 + fileName.length) = hideProcessedData deflate encrypt payload password ∧
      hideProcessedData deflate encrypt payload password
        = (match password with
           | some pw => encrypt pw (deflate payload)
           | none => deflate payload)) ∧
    (payload.length ≤ 1024 * 1024 * 1024 →
      ∀ td, createCarrierTotalData encrypt sha payload fileName password = .ok td →
      td.getD 3 0 = 0 ∧
      td.drop (47 + fileName.length) = createProcessedData encrypt payload password ∧
      createProcessedData encrypt payload password
        = (match password with
           | some pw => if pw.isEmpty then payload else encrypt pw payload
           | none => payload)) := by
  constructor
  · intro td h
    rw [hideTotalData_eq deflate encrypt sha payload fileName password bitDepth hfn hsha] at h
    cases h
    refine ⟨?_, ?_, rfl⟩
    · simp only [List.append_assoc]
      rw [List.getD_append _ _ 0 3 (by simp)]
      rfl
    · have hl : ((((([83, 67, 1, 1, bitDepth % 256] ++
          le64 (hideProcessedData deflate encrypt payload password).length) ++
          [fileName.length]) ++ fileName.map (· % 256)) ++
          [if password.isSome then 1 else 0]) ++ (sha payload).map (· % 256)).length
          = 47 + fileName.length := by
        simp [le64_length, (hsha payload).1]
        try omega
      rw [← hl, List.drop_left]
  · intro hsize td h
    rw [createCarrierTotalData_eq encrypt sha payload fileName password hfn hsha hsize] at h
    cases h
    refine ⟨?_, ?_, rfl⟩
    · simp only [List.append_assoc]
      rw [List.getD_append _ _ 0 3 (by simp)]
      rfl
    · have hl : ((((([83, 67, 0, 0, 0] ++
          le64 (createProcessedData encrypt payload password).length) ++
          [fileName.length]) ++ fileName.map (· % 256)) ++
          [if createIsEncrypted password then 1 else 0]) ++ (sha payload).map (· % 256)).length
          = 47 + fileName.length := by
        simp [le64_length, (hsha payload).1]
        try omega
      rw [← hl, List.drop_left]

/-- Witness for C9: the isCompressed byte of concrete `HELLO` totalData is 1
in LSB mode and 0 in Direct mode. -/
theorem C9_compression_policy_witness :
    (hideTotalData deflStub encStub shaStub helloPayload helloName none 1).map
        (fun td => td.getD 3 0) = .ok 1 ∧
    (createCarrierTotalData encStub shaStub helloPayload helloName none).map
        (fun td => td.getD 3 0) = .ok 0 := by
  obtain ⟨h1, h2⟩ := C9_compression_policy deflStub encStub shaStub helloPayload helloName
    none 1 (by decide) shaStub_ok
  constructor
  · have e := hideTotalData_eq deflStub encStub shaStub helloPayload helloName none 1
      (by decide) shaStub_ok
    rw [e]
    simp only [Except.map]
    rw [(h1 _ e).1]
  · have e := createCarrierTotalData_eq encStub shaStub helloPayload helloName none
      (by decide) shaStub_ok (by decide)
    rw [e]
    simp only [Except.map]
    rw [(h2 (by decide) _ e).1]

theorem drop_take_mid (P H R : List Nat) (n : Nat) (hP : P.length = n) (hH : H.length = 32) :
    (((P ++ H) ++ R).drop n).take 32 = H := by
  subst hP
  rw [List.append_assoc, List.drop_left, List.take_left' hH]

/-! ## Claim C4 -/

/-- C4: in both Hide pipelines the 32 header bytes at offset
`15 + fileNameLength` are exactly `sha(payload)` — the digest of the original
unprocessed bytes, independent of bitDepth, password and compression — and on
extraction the digest of the recovered bytes must equal the stored hash:
a mismatch after successful decrypt/decompress yields `IntegrityError`, and
any successful extraction returns bytes whose digest equals the stored hash. -/
theorem C4_integrity_digest (deflate : List Nat → List Nat)
    (encrypt : List Nat → List Nat → List Nat)
    (decrypt : List Nat → List Nat → Option (List Nat))
    (inflate : List Nat → Option (List Nat)) (sha : List Nat → List Nat)
    (payload fileName : List Nat) (password : Option (List Nat)) (bitDepth : Nat)
    (hfn : fileName.length ≤ 255) (hsha : ShaOk sha) :
    (∀ td, hideTotalData deflate encrypt sha payload fileName password bitDepth = .ok td →
      (td.drop (15 + fileName.length)).take 32 = sha payload) ∧
    (payload.length ≤ 1024 * 1024 * 1024 →
      ∀ td, createCarrierTotalData encrypt sha payload fileName password = .ok td →
      (td.drop (15 + fileName.length)).take 32 = sha payload) ∧
    (∀ pixelData pw r, extractRecovered decrypt inflate pixelData pw = .ok r →
      sha r.2 ≠ r.1.sha256Hash →
      extractFileAsync decrypt inflate sha pixelData pw = .error .integrityError) ∧
    (∀ pixelData pw name data,
      extractFileAsync decrypt inflate sha pixelData pw = .ok (name, data) →
      ∃ r, extractRecovered decrypt inflate pixelData pw = .ok r ∧
        sha data = r.1.sha256Hash ∧ name = r.1.fileName ∧ data = r.2) := by
  refine ⟨?_, ?_, ?_, ?_⟩
  · intro td h
    rw [hideTotalData_eq deflate encrypt sha payload fileName password bitDepth hfn hsha] at h
    cases h
    have hl : (((([83, 67, 1, 1, bitDepth % 256] ++
        le64 (hideProcessedData deflate encrypt payload password).length) ++
        [fileName.length]) ++ fileName.map (· % 256)) ++
        [if password.isSome then 1 else 0]).length = 15 + fileName.length := by
      simp [le64_length]
      try omega
    rw [drop_take_mid _ _ _ _ hl (by simp [(hsha payload).1]),
      map_mod_eq_self _ (hsha payload).2]
  · intro hsize td h
    rw [createCarrierTotalData_eq encrypt sha payload fileName password hfn hsha hsize] at h
    cases h
    have hl : (((([83, 67, 0, 0, 0] ++
        le64 (createProcessedData encrypt payload password).length) ++
        [fileName.length]) ++ fileName.map (· % 256)) ++
        [if createIsEncrypted password then 1 else 0]).length = 15 + fileName.length := by
      simp [le64_length]
      try omega
    rw [drop_take_mid _ _ _ _ hl (by simp [(hsha payload).1]),
      map_mod_eq_self _ (hsha payload).2]
  · intro pixelData pw r h hne
    unfold extractFileAsync
    rw [h]
    simp only []
    rw [if_neg hne]
  · intro pixelData pw name data h
    unfold extractFileAsync at h
    rcases hr : extractRecovered decrypt inflate pixelData pw with e | r
    · rw [hr] at h
      exact Except.noConfusion h
    · rw [hr] at h
      simp only [] at h
      by_cases hs : sha r.2 = r.1.sha256Hash
      · rw [if_pos hs] at h
        cases h
        exact ⟨r, rfl, hs, rfl, rfl⟩
      · rw [if_neg hs] at h
        exact Except.noConfusion h

/-- Witness for C4: the 32 bytes at offset 15 + 5 of the concrete Direct-mode
`HELLO` totalData equal `shaStub helloPayload`. -/
theorem C4_integrity_digest_witness :
    (createCarrierTotalData encStub shaStub helloPayload helloName none).map
        (fun td => (td.drop 20).take 32) = .ok (shaStub helloPayload) := by
  have h := (C4_integrity_digest deflStub encStub decStub inflStub shaStub helloPayload
    helloName none 0 (by decide) shaStub_ok).2.1 (by decide)
  have e := createCarrierTotalData_eq encStub shaStub helloPayload helloName none
    (by decide) shaStub_ok (by decide)
  rw [e]
  simp only [Except.map]
  have := h _ e
  rw [show (20 : Nat) = 15 + helloName.length from rfl] at *
  rw [this]

/-! ## Claim C2: the two-probe header detection -/

/-- Counterexample to C2 as stated: a crafted buffer whose bit-depth-1 probe
matches the signature and declares `bitDepth = 2` but `encodingType = 0` — the
decoder then reads the header tail with the Direct mapping, not at the
declared bit depth, so "the declared bitDepth governs all subsequent reads"
fails. -/
theorem C2_counterexample :
    (readDataWithBitDepth probePix 0 5 1).getD 0 0 = 83 ∧
    (readDataWithBitDepth probePix 0 5 1).getD 1 0 = 67 ∧
    (readDataWithBitDepth probePix 0 5 1).getD 4 0 = 2 ∧
    ((readHeader probePix).toOption.map HeaderInfo.fileSize).getD 0
      = le64dec (readBytesDirectly probePix 5 8) ∧
    ((readHeader probePix).toOption.map HeaderInfo.fileSize).getD 0
      ≠ le64dec (readDataWithBitDepth probePix 5 8 2) := by
  refine ⟨by rfl, by rfl, by rfl, by rfl, by decide⟩

/-- C2 (amended): header detection is the two-probe algorithm — first a
BitPlane read of the 5 leading header bytes at bit depth 1; on signature match
the probe's encodingType/isCompressed/bitDepth bytes are taken, otherwise the
same 5 bytes are re-read with the Direct mapping; a second mismatch yields
`InvalidSignatureError` with no header fields.  The read function for the
header tail (and hence the payload) is selected by the decoded
`encodingType` byte: the declared bitDepth governs subsequent reads exactly
when `encodingType` is BitPlane (1); otherwise the tail is read with the
Direct mapping. -/
theorem C2_two_probe_detection (pix : List Nat) :
    ((readDataWithBitDepth pix 0 5 1).getD 0 0 = 83 ∧
     (readDataWithBitDepth pix 0 5 1).getD 1 0 = 67 →
      ∃ h, readHeader pix = .ok h ∧
        h.encodingType = (readDataWithBitDepth pix 0 5 1).getD 2 0 ∧
        (h.isCompressed = true ↔ (readDataWithBitDepth pix 0 5 1).getD 3 0 = 1) ∧
        h.bitDepth = (readDataWithBitDepth pix 0 5 1).getD 4 0 ∧
        (h.encodingType = 1 →
          h.fileSize = le64dec (readDataWithBitDepth pix 5 8 h.bitDepth)) ∧
        (h.encodingType ≠ 1 →
          h.fileSize = le64dec (readBytesDirectly pix 5 8))) ∧
    (¬ ((readDataWithBitDepth pix 0 5 1).getD 0 0 = 83 ∧
        (readDataWithBitDepth pix 0 5 1).getD 1 0 = 67) →
     (readBytesDirectly pix 0 5).getD 0 0 = 83 ∧
     (readBytesDirectly pix 0 5).getD 1 0 = 67 →
      ∃ h, readHeader pix = .ok h ∧
        h.encodingType = (readBytesDirectly pix 0 5).getD 2 0 ∧
        (h.isCompressed = true ↔ (readBytesDirectly pix 0 5).getD 3 0 = 1) ∧
        h.bitDepth = (readBytesDirectly pix 0 5).getD 4 0 ∧
        (h.encodingType = 1 →
          h.fileSize = le64dec (readDataWithBitDepth pix 5 8 h.bitDepth)) ∧
        (h.encodingType ≠ 1 →
          h.fileSize = le64dec (readBytesDirectly pix 5 8))) ∧
    (¬ ((readDataWithBitDepth pix 0 5 1).getD 0 0 = 83 ∧
        (readDataWithBitDepth pix 0 5 1).getD 1 0 = 67) →
     ¬ ((readBytesDirectly pix 0 5).getD 0 0 = 83 ∧
        (readBytesDirectly pix 0 5).getD 1 0 = 67) →
      readHeader pix = .error .invalidSignature) := by
  refine ⟨?_, ?_, ?_⟩
  · intro hsig
    unfold readHeader
    simp only []
    rw [if_pos hsig]
    simp only []
    refine ⟨_, rfl, rfl, ?_, rfl, ?_, ?_⟩
    · constructor
      · intro h
        by_cases hc : (readDataWithBitDepth pix 0 5 1).getD 3 0 = 1
        · exact hc
        · rw [if_neg hc] at h; exact absurd h (by simp)
      · intro h
        rw [if_pos h]
    · intro he
      simp only [] at he ⊢
      rw [if_pos he]
    · intro he
      simp only [] at he ⊢
      rw [if_neg he]
  · intro hns hsig
    unfold readHeader
    simp only []
    rw [if_neg hns, if_pos hsig]
    simp only []
    refine ⟨_, rfl, rfl, ?_, rfl, ?_, ?_⟩
    · constructor
      · intro h
        by_cases hc : (readBytesDirectly pix 0 5).getD 3 0 = 1
        · exact hc
        · rw [if_neg hc] at h; exact absurd h (by simp)
      · intro h
        rw [if_pos h]
    · intro he
      simp only [] at he ⊢
      rw [if_pos he]
    · intro he
      simp only [] at he ⊢
      rw [if_neg he]
  · intro hns hnd
    unfold readHeader
    simp only []
    rw [if_neg hns, if_neg hnd]

/-- Witness for C2 (amended): an all-zero buffer fails both probes and decodes
to `InvalidSignatureError`. -/
theorem C2_two_probe_detection_witness :
    readHeader (List.replicate 8 0) = .error .invalidSignature :=
  (C2_two_probe_detection (List.replicate 8 0)).2.2 (by decide) (by decide)

/-! ## Claim C8 -/

/-- C8: on extraction the three failure modes arise from disjoint conditions
and carry distinct errors — encrypted header with no password supplied
(absent or empty: the JS guard `if (!password)` treats the empty string as
falsy) is a pre-flight `PasswordRequiredError` raised no matter what the
decryption function would do (no decryption is attempted); a failure of an
actually-attempted decryption (non-empty password) is `DecryptionError`; and
a hash mismatch after the decrypt/decompress stages succeed is
`IntegrityError`. -/
theorem C8_error_taxonomy (decrypt : List Nat → List Nat → Option (List Nat))
    (inflate : List Nat → Option (List Nat)) (sha : List Nat → List Nat)
    (pixelData : List Nat) (password : Option (List Nat)) (h : HeaderInfo)
    (hhdr : readHeader pixelData = .ok h) :
    (h.isEncrypted = true → password = none ∨ password = some [] →
      ∀ decrypt2 : List Nat → List Nat → Option (List Nat),
        extractFileAsync decrypt2 inflate sha pixelData password
          = .error .passwordRequired) ∧
    (∀ pw, h.isEncrypted = true → password = some pw → pw ≠ [] →
      decrypt pw (payloadRead pixelData h) = none →
      extractFileAsync decrypt inflate sha pixelData password
        = .error .decryptionError) ∧
    (∀ r, extractRecovered decrypt inflate pixelData password = .ok r →
      sha r.2 ≠ r.1.sha256Hash →
      extractFileAsync decrypt inflate sha pixelData password
        = .error .integrityError) ∧
    (StegError.passwordRequired ≠ StegError.decryptionError ∧
     StegError.passwordRequired ≠ StegError.integrityError ∧
     StegError.decryptionError ≠ StegError.integrityError) := by
  refine ⟨?_, ?_, ?_, by decide, by decide, by decide⟩
  · intro he hpw decrypt2
    rcases hpw with rfl | rfl <;>
      (unfold extractFileAsync extractRecovered
       rw [hhdr]
       simp only [decryptStage, he]
       rfl)
  · intro pw he hpw hne hdec
    subst hpw
    rcases pw with _ | ⟨a, l⟩
    · exact absurd rfl hne
    · unfold extractFileAsync extractRecovered
      rw [hhdr]
      simp only [decryptStage, he, hdec]
      rfl
  · intro r hr hne
    unfold extractFileAsync
    rw [hr]
    simp only []
    rw [if_neg hne]

/-- Witness for C8: the concrete generated `HELLO` carrier decodes to a header,
and the three errors are pairwise distinct there. -/
theorem C8_error_taxonomy_witness :
    StegError.passwordRequired ≠ StegError.decryptionError ∧
    StegError.passwordRequired ≠ StegError.integrityError ∧
    StegError.decryptionError ≠ StegError.integrityError := by
  have hhdr : readHeader
      (writeBytesDirectly (List.replicate 100 255)
        ((createCarrierTotalData encStub shaStub helloPayload helloName none).toOption.getD []))
      = .ok {
        encodingType := 0, isCompressed := false, bitDepth := 0, fileSize := 5,
        fileName := helloName, isEncrypted := false,
        sha256Hash := shaStub helloPayload, totalHeaderSize := 52 } := by rfl
  exact (C8_error_taxonomy decStub inflStub shaStub _ none _ hhdr).2.2.2

/-! ## Direct-mode carrier: channel contents of the generated image -/

theorem dirWrite_chan (T buf : List Nat) (c : Nat)
    (hchan : chan c < buf.length) (hc : c < T.length) :
    (writeBytesDirectly buf T).getD (chan c) 0 = T.getD c 0 := by
  unfold writeBytesDirectly
  rw [dirWriteGo_getD T buf 0 (chan c) hchan]
  have h1 : ¬ (chan c % 4 = 3 ∨ T.length ≤ 0 + dirIdx (chan c)) := by
    rw [dirIdx_chan]
    have := chan_mod_ne c
    omega
  rw [if_neg h1, dirIdx_chan, Nat.zero_add]

theorem le64dec_congr (a b : List Nat) (h : ∀ i, i < 8 → a.getD i 0 = b.getD i 0) :
    le64dec a = le64dec b := by
  unfold le64dec
  apply List.foldl_ext
  intro acc i hi
  rw [h i (List.mem_range.mp hi)]

theorem getD_cons5 (a b c d e : Nat) (l : List Nat) (i : Nat) :
    (a :: b :: c :: d :: e :: l).getD (5 + i) 0 = l.getD i 0 := by
  rw [show 5 + i = i + 1 + 1 + 1 + 1 + 1 from by omega]
  simp [List.getD_cons_succ]

theorem genTotal_fields (L : Nat) (fileName hash payload : List Nat)
    (hhash : hash.length = 32) :
    (∀ i, i < 8 →
      (83 :: 67 :: 0 :: 0 :: 0 ::
        (le64 L ++ (fileName.length :: (fileName ++ (0 :: (hash ++ payload)))))).getD (5 + i) 0
      = (le64 L).getD i 0) ∧
    (83 :: 67 :: 0 :: 0 :: 0 ::
      (le64 L ++ (fileName.length :: (fileName ++ (0 :: (hash ++ payload)))))).getD 13 0
      = fileName.length ∧
    (∀ i, i < fileName.length →
      (83 :: 67 :: 0 :: 0 :: 0 ::
        (le64 L ++ (fileName.length :: (fileName ++ (0 :: (hash ++ payload)))))).getD (14 + i) 0
      = fileName.getD i 0) ∧
    (83 :: 67 :: 0 :: 0 :: 0 ::
      (le64 L ++ (fileName.length :: (fileName ++ (0 :: (hash ++ payload)))))).getD
        (14 + fileName.length) 0 = 0 ∧
    (∀ i, i < 32 →
      (83 :: 67 :: 0 :: 0 :: 0 ::
        (le64 L ++ (fileName.length :: (fileName ++ (0 :: (hash ++ payload)))))).getD
          (15 + fileName.length + i) 0
      = hash.getD i 0) ∧
    (∀ i,
      (83 :: 67 :: 0 :: 0 :: 0 ::
        (le64 L ++ (fileName.length :: (fileName ++ (0 :: (hash ++ payload)))))).getD
          (47 + fileName.length + i) 0
      = payload.getD i 0) := by
  have hle : (le64 L).length = 8 := le64_length L
  refine ⟨?_, ?_, ?_, ?_, ?_, ?_⟩
  · intro i hi
    rw [getD_cons5, List.getD_append _ _ _ _ (by omega)]
  · rw [show (13 : Nat) = 5 + 8 from rfl, getD_cons5,
      List.getD_append_right _ _ _ _ (by omega), hle]
    rfl
  · intro i hi
    rw [show 14 + i = 5 + (9 + i) from by omega, getD_cons5,
      List.getD_append_right _ _ _ _ (by omega), hle,
      show 9 + i - 8 = i + 1 from by omega, List.getD_cons_succ,
      List.getD_append _ _ _ _ (by omega)]
  · rw [show 14 + fileName.length = 5 + (9 + fileName.length) from by omega, getD_cons5,
      List.getD_append_right _ _ _ _ (by omega), hle,
      show 9 + fileName.length - 8 = fileName.length + 1 from by omega, List.getD_cons_succ,
      List.getD_append_right _ _ _ _ (by omega)]
    simp
  · intro i hi
    rw [show 15 + fileName.length + i = 5 + (9 + (fileName.length + (1 + i))) from by omega,
      getD_cons5, List.getD_append_right _ _ _ _ (by omega), hle,
      show 9 + (fileName.length + (1 + i)) - 8 = (fileName.length + (1 + i)) + 1 from by omega,
      List.getD_cons_succ,
      List.getD_append_right _ _ _ _ (by omega),
      show fileName.length + (1 + i) - fileName.length = i + 1 from by omega,
      List.getD_cons_succ,
      List.getD_append _ _ _ _ (by omega)]
  · intro i
    rw [show 47 + fileName.length + i = 5 + (9 + (fileName.length + (1 + (32 + i)))) from by
        omega,
      getD_cons5, List.getD_append_right _ _ _ _ (by omega), hle,
      show 9 + (fileName.length + (1 + (32 + i))) - 8
        = (fileName.length + (1 + (32 + i))) + 1 from by omega,
      List.getD_cons_succ,
      List.getD_append_right _ _ _ _ (by omega),
      show fileName.length + (1 + (32 + i)) - fileName.length = (32 + i) + 1 from by omega,
      List.getD_cons_succ,
      List.getD_append_right _ _ _ _ (by omega), hhash,
      show 32 + i - 32 = i from by omega]

/-! ## Claim C1 -/

/-- C1: Direct-mode round trip — whenever hiding payload bytes under a
filename (of at most 255 UTF-8 bytes) with no password in a generated carrier
succeeds, extracting from the resulting pixel buffer returns exactly the
filename and the payload, bit-identical. -/
theorem C1_direct_roundtrip (encrypt : List Nat → List Nat → List Nat)
    (decrypt : List Nat → List Nat → Option (List Nat))
    (inflate : List Nat → Option (List Nat)) (sha : List Nat → List Nat)
    (hsha : ShaOk sha) (payload fileName : List Nat)
    (hfn : fileName.length ≤ 255) (hfnb : ∀ b ∈ fileName, b < 256)
    (img : GeneratedImage)
    (himg : createCarrierImageAsync encrypt sha payload fileName none = .ok img) :
    extractFileAsync decrypt inflate sha img.pixels none = .ok (fileName, payload) := by
  have hsize : ¬ (payload.length > 1024 * 1024 * 1024) := by
    intro hc
    unfold createCarrierImageAsync createCarrierTotalData at himg
    rw [if_pos hc] at himg
    exact Except.noConfusion himg
  have htd0 := createCarrierTotalData_eq encrypt sha payload fileName none hfn hsha (by omega)
  have hproc : createProcessedData encrypt payload none = payload := rfl
  have henc0 : (if createIsEncrypted none then 1 else 0) = 0 := rfl
  rw [hproc, henc0, map_mod_eq_self fileName hfnb, map_mod_eq_self _ (hsha payload).2] at htd0
  have hassoc : ((((([83, 67, 0, 0, 0] ++ le64 payload.length) ++ [fileName.length]) ++
        fileName) ++ [0]) ++ sha payload) ++ payload
      = 83 :: 67 :: 0 :: 0 :: 0 :: (le64 payload.length ++
          (fileName.length :: (fileName ++ (0 :: (sha payload ++ payload))))) := by
    simp [List.append_assoc]
  rw [hassoc] at htd0
  set T := 83 :: 67 :: 0 :: 0 :: 0 :: (le64 payload.length ++
    (fileName.length :: (fileName ++ (0 :: (sha payload ++ payload))))) with hTdef
  obtain ⟨hF2, hF3, hF4, hF5, hF6, hF7⟩ :=
    genTotal_fields payload.length fileName (sha payload) payload (hsha payload).1
  rw [← hTdef] at hF2 hF3 hF4 hF5 hF6 hF7
  have hT0 : T.getD 0 0 = 83 := by rw [hTdef]; rfl
  have hT1 : T.getD 1 0 = 67 := by rw [hTdef]; rfl
  have hT2 : T.getD 2 0 = 0 := by rw [hTdef]; rfl
  have hT3 : T.getD 3 0 = 0 := by rw [hTdef]; rfl
  have hT4 : T.getD 4 0 = 0 := by rw [hTdef]; rfl
  have hTlen : T.length = 47 + fileName.length + payload.length := by
    rw [hTdef]
    simp [le64_length, (hsha payload).1]
    try omega
  have himg2 : img = ⟨ceilSqrt ((T.length + 2) / 3),
      writeBytesDirectly
        (List.replicate (ceilSqrt ((T.length + 2) / 3) * ceilSqrt ((T.length + 2) / 3) * 4) 255)
        T⟩ := by
    unfold createCarrierImageAsync at himg
    rw [htd0] at himg
    simp only [] at himg
    exact (Except.ok.inj himg).symm
  rw [himg2]
  simp only []
  set s := ceilSqrt ((T.length + 2) / 3) with hsdef
  set blank := List.replicate (s * s * 4) 255 with hblank
  set W := writeBytesDirectly blank T with hWdef
  have hblen : blank.length = s * s * 4 := by rw [hblank]; simp
  have hsq : (T.length + 2) / 3 ≤ s * s := by rw [hsdef]; exact ceilSqrt_sq_ge _
  have hcap : T.length ≤ 3 * (blank.length / 4) := by
    rw [hblen]
    omega
  have hchan : ∀ c, c < T.length → chan c < blank.length := by
    intro c hc
    apply chan_lt (by rw [hblen]; omega)
    omega
  have hWc : ∀ c, c < T.length → W.getD (chan c) 0 = T.getD c 0 := by
    intro c hc
    rw [hWdef]
    exact dirWrite_chan T blank c (hchan c hc) hc
  have hWlen : W.length = blank.length := by
    rw [hWdef]
    exact writeBytesDirectly_length blank T
  have hdirect : ∀ o len i, i < len → o + i < T.length →
      (readBytesDirectly W o len).getD i 0 = T.getD (o + i) 0 := by
    intro o len i hi ho
    rw [readBytesDirectly_getD W o len i hi, hWc (o + i) ho]
  have hW0 : W.getD 0 0 = 83 := by
    have h := hWc 0 (by omega)
    rw [show chan 0 = 0 from rfl] at h
    rw [h, hT0]
  -- the depth-1 probe cannot match: its first byte has the high bit set
  have hprobe : ¬ ((readDataWithBitDepth W 0 5 1).getD 0 0 = 83 ∧
      (readDataWithBitDepth W 0 5 1).getD 1 0 = 67) := by
    rintro ⟨hp0, -⟩
    have hss : 16 ≤ s * s := by
      have h47 : 47 ≤ T.length := by omega
      have h16 : 16 ≤ (T.length + 2) / 3 := by omega
      omega
    have hbnd : 0 + 5 * (lsbChunks 1 * 1) ≤ W.length * 8 := by
      rw [hWlen, hblen, show lsbChunks 1 = 8 from rfl]
      omega
    have hread := lsbReadGo_eq W 1 (by norm_num) 5 0 (by simpa using hbnd)
    have hval : (readDataWithBitDepth W 0 5 1).getD 0 0
        = lsbAssemble W 1 0 (lsbChunks 1) % 256 := by
      unfold readDataWithBitDepth
      rw [show (0 : Nat) * 8 = 0 from rfl, hread]
      rw [List.getD_eq_getElem _ 0 (by simp), List.getElem_map, List.getElem_range]
      norm_num
    obtain ⟨r, hrlt, hsplit⟩ := lsbAssemble_split W 1 0 1 7
    have ha1 : lsbAssemble W 1 0 1 = 1 := by
      show (lsbAssemble W 1 0 0 <<< 1) |||
        (W.getD (lsbChanIdx 1 (0 + 0 * 1)) 0 &&& ((1 <<< 1) - 1)) = 1
      rw [show lsbChanIdx 1 (0 + 0 * 1) = 0 from rfl, hW0,
        show lsbAssemble W 1 0 0 = 0 from rfl]
      decide
    rw [hval, show lsbChunks 1 = 8 from rfl, show (8 : Nat) = 1 + 7 from rfl,
      hsplit, ha1] at hp0
    have h27 : (2 : Nat) ^ (1 * 7) = 128 := by norm_num
    have hmod : (1 * 2 ^ (1 * 7) + r) % 256 = 1 * 2 ^ (1 * 7) + r :=
      Nat.mod_eq_of_lt (by omega)
    rw [hmod] at hp0
    omega
  have hd0 : (readBytesDirectly W 0 5).getD 0 0 = 83 := by
    rw [hdirect 0 5 0 (by norm_num) (by omega)]; exact hT0
  have hd1 : (readBytesDirectly W 0 5).getD 1 0 = 67 := by
    rw [hdirect 0 5 1 (by norm_num) (by omega)]; exact hT1
  have hd2 : (readBytesDirectly W 0 5).getD 2 0 = 0 := by
    rw [hdirect 0 5 2 (by norm_num) (by omega)]; exact hT2
  have hd3 : (readBytesDirectly W 0 5).getD 3 0 = 0 := by
    rw [hdirect 0 5 3 (by norm_num) (by omega)]; exact hT3
  have hd4 : (readBytesDirectly W 0 5).getD 4 0 = 0 := by
    rw [hdirect 0 5 4 (by norm_num) (by omega)]; exact hT4
  have hfs : le64dec (readBytesDirectly W 5 8) = payload.length := by
    rw [le64dec_congr (readBytesDirectly W 5 8) (le64 payload.length) (by
      intro i hi
      rw [hdirect 5 8 i hi (by omega)]
      exact hF2 i hi)]
    exact le64dec_le64 _ (by omega)
  have hfnlen : (readBytesDirectly W 13 1).getD 0 0 = fileName.length := by
    rw [hdirect 13 1 0 (by norm_num) (by omega)]
    exact hF3
  have hfname : readBytesDirectly W 14 fileName.length = fileName := by
    apply List.ext_getElem (by simp [readBytesDirectly_length])
    intro i h1 h2
    rw [← List.getD_eq_getElem _ 0 h1, ← List.getD_eq_getElem _ 0 h2]
    rw [hdirect 14 fileName.length i h2 (by omega)]
    exact hF4 i h2
  have hencb : (readBytesDirectly W (14 + fileName.length) 1).getD 0 0 = 0 := by
    rw [hdirect (14 + fileName.length) 1 0 (by norm_num) (by omega)]
    exact hF5
  have hhash : readBytesDirectly W (15 + fileName.length) 32 = sha payload := by
    apply List.ext_getElem (by simp [readBytesDirectly_length, (hsha payload).1])
    intro i h1 h2
    rw [← List.getD_eq_getElem _ 0 h1, ← List.getD_eq_getElem _ 0 h2]
    have h32 : i < 32 := by
      have := (hsha payload).1
      omega
    rw [hdirect (15 + fileName.length) 32 i h32 (by omega)]
    exact hF6 i h32
  have hpay : readBytesDirectly W (47 + fileName.length) payload.length = payload := by
    apply List.ext_getElem (by simp [readBytesDirectly_length])
    intro i h1 h2
    rw [← List.getD_eq_getElem _ 0 h1, ← List.getD_eq_getElem _ 0 h2]
    rw [hdirect (47 + fileName.length) payload.length i h2 (by omega)]
    exact hF7 i
  have hhdr : readHeader W = .ok ⟨0, false, 0, payload.length, fileName, false,
      sha payload, 47 + fileName.length⟩ := by
    unfold readHeader
    simp only []
    rw [if_neg hprobe, if_pos ⟨hd0, hd1⟩, hd2, hd3, hd4]
    norm_num
    have hfnlen2 : (readBytesDirectly W 13 1)[0]?.getD 0 = fileName.length := hfnlen
    rw [hfnlen2]
    refine ⟨hfs, hfname, ?_, hhash, rfl⟩
    have hencb2 : (readBytesDirectly W (14 + fileName.length) 1)[0]?.getD 0 = 0 := hencb
    rw [hencb2]
    decide
  unfold extractFileAsync extractRecovered
  rw [hhdr]
  simp only []
  have hpayl : payloadRead W ⟨0, false, 0, payload.length, fileName, false,
      sha payload, 47 + fileName.length⟩ = payload := by
    unfold payloadRead
    norm_num
    exact hpay
  rw [hpayl]
  simp only [decryptStage, inflateStage]
  norm_num

/-- Witness for C1: hiding the concrete `HELLO` payload under `a.txt` and
extracting from the generated pixels returns them exactly. -/
theorem C1_direct_roundtrip_witness :
    extractFileAsync decStub inflStub shaStub
      ((createCarrierImageAsync encStub shaStub helloPayload helloName none).toOption.getD
        ⟨0, []⟩).pixels none
      = .ok (helloName, helloPayload) :=
  C1_direct_roundtrip encStub decStub inflStub shaStub shaStub_ok helloPayload helloName
    (by decide) (by decide) _ (by rfl)

/-! ## Claim C6 -/

theorem ceilSqrt_19 : ceilSqrt 19 = 5 := by
  have h1 : 4 ≤ Nat.sqrt 19 := Nat.le_sqrt.2 (by norm_num)
  have h2 : Nat.sqrt 19 < 5 := Nat.sqrt_lt.2 (by norm_num)
  have h4 : Nat.sqrt 19 = 4 := by omega
  unfold ceilSqrt
  rw [h4]
  norm_num

theorem createCarrier_hello :
    createCarrierImageAsync encStub shaStub helloPayload helloName none
      = .ok ⟨5, writeBytesDirectly (List.replicate 100 255)
          (((((([83, 67, 0, 0, 0] ++ le64 helloPayload.length) ++ [helloName.length]) ++
            helloName) ++ [0]) ++ shaStub helloPayload) ++ helloPayload)⟩ := by
  have h : createCarrierImageAsync encStub shaStub helloPayload helloName none
      = .ok ⟨ceilSqrt 19, writeBytesDirectly
          (List.replicate (ceilSqrt 19 * ceilSqrt 19 * 4) 255)
          (((((([83, 67, 0, 0, 0] ++ le64 helloPayload.length) ++ [helloName.length]) ++
            helloName) ++ [0]) ++ shaStub helloPayload) ++ helloPayload)⟩ := by rfl
  rw [h, ceilSqrt_19]

/-- Counterexample to C6 as stated: for the HELLO / "a.txt" / no-password
Direct scenario the header is 52 bytes (2+1+1+1+8+1+5+1+32 = 52, not 53), the
total embedded data is 57 bytes (not 58), and the generated minimal square
carrier is 5×5 pixels (ceil(sqrt(ceil(57/3))) = ceil(sqrt(19)) = 5, not
20×20 — 20 = ceil(58/3) would be a pixel count, not a side length). -/
theorem C6_counterexample :
    (createHeader helloPayload.length helloName (shaStub helloPayload) false 0 false 0).map
        List.length = .ok 52 ∧
    (createCarrierTotalData encStub shaStub helloPayload helloName none).map List.length
        = .ok 57 ∧
    (createCarrierImageAsync encStub shaStub helloPayload helloName none).map
        GeneratedImage.size = .ok 5 ∧
    ((52 : Nat) ≠ 53 ∧ (57 : Nat) ≠ 58 ∧ (5 : Nat) ≠ 20) :=
  ⟨by rfl, by rfl, by rw [createCarrier_hello]; rfl, by decide⟩

/-- C6 (amended): for payload = the 5 ASCII bytes HELLO, filename "a.txt"
(5 bytes), no password, Direct mode, the encoded header is
2+1+1+1+8+1+5+1+32 = 52 bytes, the total embedded data is 57 bytes, the
generated minimal square carrier is 5×5 pixels (ceil(sqrt(ceil(57/3))) =
ceil(sqrt(19)) = 5), and extracting from the resulting image returns filename
"a.txt" and payload HELLO. -/
theorem C6_concrete_scenario :
    (createHeader helloPayload.length helloName (shaStub helloPayload) false 0 false 0).map
        List.length = .ok (2 + 1 + 1 + 1 + 8 + 1 + 5 + 1 + 32) ∧
    (2 + 1 + 1 + 1 + 8 + 1 + 5 + 1 + 32 : Nat) = 52 ∧
    (createCarrierTotalData encStub shaStub helloPayload helloName none).map List.length
        = .ok 57 ∧
    (createCarrierImageAsync encStub shaStub helloPayload helloName none).map
        GeneratedImage.size = .ok (ceilSqrt ((57 + 2) / 3)) ∧
    ceilSqrt ((57 + 2) / 3) = 5 ∧
    extractFileAsync decStub inflStub shaStub
      ((createCarrierImageAsync encStub shaStub helloPayload helloName none).toOption.getD
        ⟨0, []⟩).pixels none = .ok (helloName, helloPayload) :=
  ⟨by rfl, by decide, by rfl,
   by rw [createCarrier_hello]; norm_num [ceilSqrt_19]; rfl,
   by norm_num [ceilSqrt_19],
   by rw [createCarrier_hello]; rfl⟩

end SOC2
